import Mathlib

/-!
Verification of the vibemux session engine and dispatch layer.

This file shallowly embeds the Go source of the repository:
ring buffer (internal/runtime/buffer.go and the byte-at-a-time variant),
output watcher (ui watcher file), conclusion extractor (runtime extract file),
native driver command building (internal/runtime/driver/native.go),
session engine registry (internal/runtime/engine.go), PTY session stop and
read loop (internal/runtime/session.go), IME composition buffer
(internal/ui/components/sessiontabs/sessiontabs.go) and turn-sequence
parsing (internal/ui/logic_turn.go), and proves the spec claims about them.
-/

namespace Vibemux

/-! ## Ring buffer (internal/runtime/buffer.go)

Go struct fields: `data []byte`, `size int`, `start int`, `end int`,
`full bool`.  The Go field `end` is a Lean keyword, so it is called
`endPos` here. -/
structure RingBuffer where
  data : List UInt8
  size : Nat
  start : Nat
  endPos : Nat
  full : Bool
  deriving Repr, DecidableEq

/-- Models Go `copy(dst[i:], src)`: writes `min (dst.length - i) src.length`
bytes of `src` starting at offset `i`, leaving length unchanged. -/
def goCopy (dst : List UInt8) (i : Nat) (src : List UInt8) : List UInt8 :=
  dst.take i ++ src.take (dst.length - i) ++ dst.drop (i + min (dst.length - i) src.length)

/-- Go `NewRingBuffer` from buffer.go: a size `≤ 0` falls back to 50000. -/
def RingBuffer.new (size : Nat) : RingBuffer :=
  let size := if size = 0 then 50000 else size
  { data := List.replicate size 0, size := size, start := 0, endPos := 0, full := false }

/-- Go `lenLocked` from buffer.go. -/
def RingBuffer.lenLocked (r : RingBuffer) : Nat :=
  if r.full then r.size
  else if r.start ≤ r.endPos then r.endPos - r.start
  else r.size - r.start + r.endPos

/-- The copy section of `RingBuffer.Write` from buffer.go: the single-segment
copy when the data fits before the wrap point, the two-segment copy
otherwise.  `firstPart` is `r.size - r.endPos`. -/
def RingBuffer.writeFit (r : RingBuffer) (p : List UInt8) : RingBuffer :=
  if r.endPos + p.length ≤ r.size then
    { r with data := goCopy r.data r.endPos p,
             endPos := if r.endPos + p.length = r.size then 0 else r.endPos + p.length }
  else
    { r with data := goCopy (goCopy r.data r.endPos (p.take (r.size - r.endPos))) 0
                       (p.drop (r.size - r.endPos)),
             endPos := p.length - (r.size - r.endPos) }

/-- Go `RingBuffer.Write` from buffer.go (batch-copy version).  In the Go code
`oldLen` is read before the copy and the overflow update
(`full = true; start = end`) is applied after it; since the copy section
does not change `lenLocked`'s inputs read into `oldLen`, the overflow test
`oldLen + n >= size` is hoisted in front of the copy here. -/
def RingBuffer.write (r : RingBuffer) (p : List UInt8) : RingBuffer :=
  if p.length = 0 then r
  else if r.size ≤ p.length then
    { r with data := goCopy r.data 0 (p.drop (p.length - r.size)), start := 0, endPos := 0,
             full := true }
  else if r.size ≤ r.lenLocked + p.length then
    { r.writeFit p with full := true, start := (r.writeFit p).endPos }
  else r.writeFit p

/-- Go `RingBuffer.Bytes` from buffer.go. -/
def RingBuffer.bytes (r : RingBuffer) : List UInt8 :=
  if r.start = r.endPos ∧ r.full = false then []
  else if r.full = true ∨ r.endPos ≤ r.start then
    r.data.drop r.start ++ r.data.take r.endPos
  else
    (r.data.drop r.start).take (r.endPos - r.start)

/-- Go `RingBuffer.Len` from buffer.go. -/
def RingBuffer.len (r : RingBuffer) : Nat :=
  r.lenLocked

/-- One byte of the byte-at-a-time `Write` of the second RingBuffer version. -/
def RingBuffer.writeNaiveByte (r : RingBuffer) (b : UInt8) : RingBuffer :=
  let data := r.data.set r.endPos b
  let e := (r.endPos + 1) % r.size
  let s := if r.full then (r.start + 1) % r.size else r.start
  let f := if e = s then true else r.full
  { r with data := data, endPos := e, start := s, full := f }

/-- Go `RingBuffer.Write` of the byte-at-a-time version. -/
def RingBuffer.writeNaive (r : RingBuffer) (p : List UInt8) : RingBuffer :=
  p.foldl RingBuffer.writeNaiveByte r

/-- Go `NewRingBuffer` of the byte-at-a-time version (no guard on size). -/
def RingBuffer.newNaive (size : Nat) : RingBuffer :=
  { data := List.replicate size 0, size := size, start := 0, endPos := 0, full := false }

/-- The trailing `n` bytes of `l` (all of `l` when `l.length ≤ n`). -/
def listSuffix (l : List UInt8) (n : Nat) : List UInt8 :=
  l.drop (l.length - n)

/-- The representation invariant tying a ring-buffer state to the history `h`
of all bytes ever written.  Both Write implementations preserve it. -/
def RBInv (N : Nat) (r : RingBuffer) (h : List UInt8) : Prop :=
  r.size = N ∧ r.data.length = N ∧
  ((r.full = false ∧ r.start = 0 ∧ r.endPos = h.length ∧ h.length < N ∧
      r.data.take h.length = h) ∨
   (r.full = true ∧ r.start = r.endPos ∧ r.endPos < N ∧ N ≤ h.length ∧
      r.data.drop r.endPos ++ r.data.take r.endPos = listSuffix h N))

/-! ## Turn-sequence parsing (internal/ui/logic_turn.go)

Strings are processed as `List Char`; the separators used by the Go code
(`","` and `"-"`) are single characters, so Go `strings.Split` is modelled
by a character splitter. -/
/-- Go `unicode.IsSpace`. -/
def goIsSpace (c : Char) : Bool :=
  c = ' ' ∨ c = '\t' ∨ c = '\n' ∨ c.toNat = 11 ∨ c.toNat = 12 ∨ c = '\r' ∨
  c.toNat = 0x85 ∨ c.toNat = 0xA0 ∨ c.toNat = 0x1680 ∨
  (0x2000 ≤ c.toNat ∧ c.toNat ≤ 0x200A) ∨ c.toNat = 0x2028 ∨ c.toNat = 0x2029 ∨
  c.toNat = 0x202F ∨ c.toNat = 0x205F ∨ c.toNat = 0x3000

/-- Go `strings.TrimSpace` on a character list. -/
def trimChars (cs : List Char) : List Char :=
  ((cs.dropWhile goIsSpace).reverse.dropWhile goIsSpace).reverse

/-- Go `strings.Split` for a one-character separator. -/
def splitChar (sep : Char) : List Char → List (List Char)
  | [] => [[]]
  | c :: cs =>
    if c = sep then [] :: splitChar sep cs
    else
      match splitChar sep cs with
      | [] => [[c]]
      | g :: gs => (c :: g) :: gs

/-- Digit run for `strconv.Atoi`: all characters must be decimal digits. -/
def parseDigits (cs : List Char) : Option Nat :=
  if cs = [] then none
  else if cs.all (fun c => decide ('0' ≤ c) && decide (c ≤ '9')) then
    some (cs.foldl (fun acc c => acc * 10 + (c.toNat - 48)) 0)
  else none

/-- Go `strconv.Atoi` (overflow is not modelled; the grid indices parsed
here are tiny). -/
def goAtoi (cs : List Char) : Option Int :=
  match cs with
  | [] => none
  | c :: rest =>
    if c = '+' then (parseDigits rest).map (fun n => (n : Int))
    else if c = '-' then (parseDigits rest).map (fun n => -(n : Int))
    else (parseDigits cs).map (fun n => (n : Int))

/-- The loop body `for i := start; i <= end; i++` of the range branch of
`parseTurnSequence`: indices out of `[0, len)` are skipped. -/
def pickRange (s e : Int) (gridIDs : List String) : List String :=
  ((List.range (e - s + 1).toNat).map (fun k => s + (k : Int))).filterMap
    (fun i => if 0 ≤ i ∧ i < (gridIDs.length : Int) then some (gridIDs.getD i.toNat "") else none)

/-- One iteration of the `for _, part := range parts` loop of
`App.parseTurnSequence`. -/
def parsePart (gridIDs : List String) (acc : List String) (part0 : List Char) : List String :=
  let part := trimChars part0
  if part = [] then acc
  else if part.contains '-' then
    match splitChar '-' part with
    | [a, b] =>
      match goAtoi (trimChars a), goAtoi (trimChars b) with
      | some s, some e => if s ≤ e then acc ++ pickRange s e gridIDs else acc
      | some _, none => acc
      | none, _ => acc
    | _ => acc
  else
    match goAtoi part with
    | some idx =>
      if 0 ≤ idx ∧ idx < (gridIDs.length : Int) then acc ++ [gridIDs.getD idx.toNat ""]
      else acc
    | none => acc

/-- Go `App.parseTurnSequence` from internal/ui/logic_turn.go. -/
def parseTurnSequence (input : String) (gridIDs : List String) : List String :=
  if input = "" then gridIDs
  else
    let parts := splitChar ',' input.toList
    let resultIDs := parts.foldl (parsePart gridIDs) []
    if resultIDs = [] then gridIDs else resultIDs

/-! ## IME composition buffer (internal/ui/components/sessiontabs/sessiontabs.go)
and the terminal-mode rune dispatch of internal/ui/update.go.

The flush timer is represented by the Boolean "a flush command was
scheduled"; timer expiry is a separate event (`IMEFlushMsg`) not fired in
the scenarios below. -/
structure IMEBuffer where
  buffer : List Char
  targetID : String
  deriving Repr, DecidableEq

/-- Go `unicode.IsLetter(r) && r >= 'a' && r <= 'z'` from `isLikelyIMEPreedit`:
every character in the range a..z is a Unicode letter, so the conjunction
reduces to the range check. -/
def isLowerAsciiLetter (r : Char) : Bool :=
  decide ('a' ≤ r) && decide (r ≤ 'z')

/-- Go `IMEBuffer.isLikelyIMEPreedit`. -/
def isLikelyIMEPreedit (runes : List Char) : Bool :=
  match runes with
  | [] => false
  | [r] => isLowerAsciiLetter r
  | _ => runes.all isLowerAsciiLetter

/-- UTF-8 encoding of one character, as Go `[]byte(string(runes))` produces. -/
def utf8Char (c : Char) : List UInt8 :=
  let n := c.toNat
  if n < 0x80 then [UInt8.ofNat n]
  else if n < 0x800 then
    [UInt8.ofNat (0xC0 ||| (n >>> 6)), UInt8.ofNat (0x80 ||| (n &&& 0x3F))]
  else if n < 0x10000 then
    [UInt8.ofNat (0xE0 ||| (n >>> 12)), UInt8.ofNat (0x80 ||| ((n >>> 6) &&& 0x3F)),
     UInt8.ofNat (0x80 ||| (n &&& 0x3F))]
  else
    [UInt8.ofNat (0xF0 ||| (n >>> 18)), UInt8.ofNat (0x80 ||| ((n >>> 12) &&& 0x3F)),
     UInt8.ofNat (0x80 ||| ((n >>> 6) &&& 0x3F)), UInt8.ofNat (0x80 ||| (n &&& 0x3F))]

/-- UTF-8 encoding of a rune sequence. -/
def utf8 (rs : List Char) : List UInt8 :=
  (rs.map utf8Char).flatten

/-- Go `IMEBuffer.ProcessRunes`.  Result: new state, immediate output bytes,
whether a flush timer command was scheduled, and `shouldFlushFirst`. -/
def IMEBuffer.processRunes (b : IMEBuffer) (runes : List Char) :
    IMEBuffer × List UInt8 × Bool × Bool :=
  if runes = [] then (b, [], false, false)
  else if runes.any (fun r => 127 < r.toNat) then
    ({ b with buffer := [] }, utf8 runes, false, false)
  else if isLikelyIMEPreedit runes then
    ({ b with buffer := b.buffer ++ runes }, [], true, false)
  else if b.buffer ≠ [] then (b, utf8 runes, false, true)
  else (b, utf8 runes, false, false)

/-- Go `IMEBuffer.Flush`: returns the buffered bytes and clears the buffer. -/
def IMEBuffer.flush (b : IMEBuffer) : IMEBuffer × List UInt8 :=
  if b.buffer = [] then (b, []) else ({ b with buffer := [] }, utf8 b.buffer)

/-- The `tea.KeyRunes` path of `handleTerminalKeys` in internal/ui/update.go:
flush the staged preedit first when requested, then send the immediate
output (with the Alt prefix when set).  Returns the buffer state and the
list of writes issued to the session. -/
def dispatchRunes (b : IMEBuffer) (runes : List Char) (alt : Bool) :
    IMEBuffer × List (List UInt8) :=
  let res := b.processRunes runes
  let b1 := res.1
  let output := res.2.1
  let shouldFlushFirst := res.2.2.2
  let step2 :=
    if shouldFlushFirst then
      let fl := b1.flush
      (fl.1, if fl.2 ≠ [] then [fl.2] else [])
    else (b1, ([] : List (List UInt8)))
  let writes2 :=
    if output ≠ [] then [if alt then (27 : UInt8) :: output else output]
    else ([] : List (List UInt8))
  (step2.1, step2.2 ++ writes2)

/-- A sequence of `tea.KeyRunes` events dispatched in terminal mode,
collecting every write made to the PTY session. -/
def dispatchRuneEvents (b : IMEBuffer) (events : List (List Char)) :
    IMEBuffer × List (List UInt8) :=
  events.foldl
    (fun acc runes =>
      let st := dispatchRunes acc.1 runes false
      (st.1, acc.2 ++ st.2))
    (b, [])

/-! ## Native driver command building (internal/runtime/driver/native.go and
resolve.go)

Go map iteration (`for k, v := range profile.EnvVars`) has no specified
order, so the overlay is passed as an explicit entry order; a call of
`BuildCommand` corresponds to one choice of order.  `os.Environ()` and
`resolveExecutablePath` (an OS lookup) are parameters. -/
inductive AutoApprove where
  | none | safe | vibe | yolo
  deriving Repr, DecidableEq

structure Profile where
  command : String
  envVars : List (String × String)
  autoApprove : AutoApprove
  deriving Repr, DecidableEq

structure Cmd where
  argv : List String
  dir : String
  env : List String
  deriving Repr, DecidableEq

/-- One step of the `for _, r := range input` loop of `splitCommandLine`.
State: collected args, current token, open quote, pending escape. -/
def splitStep (st : List (List Char) × List Char × Option Char × Bool) (r : Char) :
    List (List Char) × List Char × Option Char × Bool :=
  let args := st.1
  let current := st.2.1
  let quote := st.2.2.1
  let escaped := st.2.2.2
  if escaped then (args, current ++ [r], quote, false)
  else if r = '\\' then (args, current, quote, true)
  else
    match quote with
    | some q => if r = q then (args, current, none, false) else (args, current ++ [r], some q, false)
    | none =>
      if r = '"' ∨ r = Char.ofNat 39 then (args, current, some r, false)
      else if r = ' ' ∨ r = '\t' ∨ r = '\n' then
        (if current ≠ [] then args ++ [current] else args, [], none, false)
      else (args, current ++ [r], none, false)

/-- Go `splitCommandLine` from internal/runtime/driver/resolve.go. -/
def splitCommandLine (input : String) : Except String (List String) :=
  let st := input.toList.foldl splitStep ([], [], none, false)
  if st.2.2.2 then .error "unfinished escape sequence in command"
  else if st.2.2.1 ≠ none then .error "unterminated quote in command"
  else if st.2.1 ≠ [] then .ok ((st.1 ++ [st.2.1]).map (fun cs => String.mk cs))
  else .ok (st.1.map (fun cs => String.mk cs))

/-- Go `strings.TrimSpace`. -/
def goTrimSpace (s : String) : String :=
  String.mk (trimChars s.toList)

/-- The `claude`/`codex` override logic shared by `Validate` and
`BuildCommand`. -/
def resolveCommandName (claudePath codexPath command : String) : String :=
  if command = "" ∨ command = "claude" then
    if claudePath ≠ "" then claudePath else "claude"
  else if command = "codex" ∧ codexPath ≠ "" then codexPath
  else command

/-- The resolution pipeline of `NativeDriver.Validate`/`BuildCommand`
(`Validate` runs the same trim/split/override steps before checking
`resolveExecutablePath`; `BuildCommand` then repeats them to build argv).
Returns the resolved argv or the first error. -/
def resolveParts (claudePath codexPath : String) (resolves : String → Bool)
    (profile? : Option Profile) : Except String (List String) :=
  match profile? with
  | Option.none => .error "profile is nil"
  | some profile =>
    let commandLine := goTrimSpace profile.command
    let commandLine := if commandLine = "" then "claude" else commandLine
    match splitCommandLine commandLine with
    | .error e => .error e
    | .ok parts =>
      if parts = [] then .error "command is empty"
      else
        let command := resolveCommandName claudePath codexPath (parts.headD "")
        if ¬ resolves command then .error ("command not found: " ++ command)
        else .ok (command :: parts.tail)

/-- The environment merge of `NativeDriver.BuildCommand`: current environment,
then the overlay entries in iteration order, then `TERM`/`COLORTERM` when the
overlay sets no `TERM`, then `NODE_OPTIONS` when no entry starts with it. -/
def buildEnv (environ : List String) (order : List (String × String)) : List String :=
  let env0 := environ ++ order.map (fun kv => kv.1 ++ "=" ++ kv.2)
  let hasTerm := order.any (fun kv => kv.1 = "TERM")
  let env1 :=
    if ¬ hasTerm then env0 ++ ["TERM=xterm-256color", "COLORTERM=truecolor"] else env0
  let hasNode := env1.any (fun e => decide (12 < e.length) && decide (e.take 12 = "NODE_OPTIONS"))
  if ¬ hasNode then env1 ++ ["NODE_OPTIONS=--max-old-space-size=4096"] else env1

/-- Go `NativeDriver.BuildCommand`: validate and resolve, then pin the command
to the project directory with the merged environment. -/
def buildCommand (claudePath codexPath : String) (environ : List String)
    (resolves : String → Bool) (workDir : String) (profile? : Option Profile)
    (order : List (String × String)) : Except String Cmd :=
  (resolveParts claudePath codexPath resolves profile?).map
    (fun argv => { argv := argv, dir := workDir, env := buildEnv environ order })

/-! ## Engine profile-overlay cloning (internal/runtime/engine.go)

Go maps are reference values: a profile's `EnvVars` field holds a reference
into a heap of maps.  The heap allocates fresh ids in order; writing a key
pushes a new binding for the map id (lookups see the newest binding). -/
structure EnvHeap where
  maps : List (Nat × List (String × String))
  next : Nat
  deriving Repr, DecidableEq

def EnvHeap.lookupMap (h : EnvHeap) (i : Nat) : Option (List (String × String)) :=
  match h.maps.find? (fun kv => kv.1 == i) with
  | some kv => some kv.2
  | none => none

def EnvHeap.alloc (h : EnvHeap) (entries : List (String × String)) : EnvHeap × Nat :=
  ({ maps := (h.next, entries) :: h.maps, next := h.next + 1 }, h.next)

def EnvHeap.update (h : EnvHeap) (i : Nat) (entries : List (String × String)) : EnvHeap :=
  { h with maps := (i, entries) :: h.maps }

/-- A profile as seen by `CreateSession`: the overlay field is a map
reference (`nil` or a heap id). -/
structure ProfileObj where
  command : String
  envVarsRef : Option Nat
  deriving Repr, DecidableEq

/-- The overlay-preparation step of `DefaultEngine.CreateSession`
(engine.go): replace a nil overlay by a fresh empty map, otherwise clone
the overlay into a fresh map; then inject `CLAUDE_CONFIG_DIR` into the new
map when the key is absent. -/
def envPrepare (h : EnvHeap) (p : ProfileObj) (sessionConfigDir : String) :
    EnvHeap × ProfileObj :=
  match p.envVarsRef with
  | Option.none =>
    let al := h.alloc []
    let p1 := { p with envVarsRef := some al.2 }
    let h2 :=
      if (([] : List (String × String)).lookup "CLAUDE_CONFIG_DIR").isNone then
        al.1.update al.2 ([("CLAUDE_CONFIG_DIR", sessionConfigDir)])
      else al.1
    (h2, p1)
  | some oldId =>
    let entries := (h.lookupMap oldId).getD []
    let al := h.alloc entries
    let p1 := { p with envVarsRef := some al.2 }
    let h2 :=
      if (entries.lookup "CLAUDE_CONFIG_DIR").isNone then
        al.1.update al.2 (entries ++ [("CLAUDE_CONFIG_DIR", sessionConfigDir)])
      else al.1
    (h2, p1)

/-! ## Engine session registry (internal/runtime/engine.go)

`CreateSession` under the engine lock: return an existing running session,
discard a terminal one, then build, start and store a fresh session.  Path
validation, the isolation directory, command building and `Start` are
abstracted as succeeding; `Start` leaves the fresh session `running`.
Session objects are identified by an allocation token so that "the same
session object" is expressible. -/
inductive SessionStatus where
  | idle | running | stopped | error
  deriving Repr, DecidableEq

structure SessionObj where
  token : Nat
  sid : String
  status : SessionStatus
  deriving Repr, DecidableEq

structure EngineState where
  sessions : List (String × Nat)
  objs : List (Nat × SessionObj)
  next : Nat
  deriving Repr, DecidableEq

def EngineState.getObj (st : EngineState) (tok : Nat) : Option SessionObj :=
  (st.objs.find? (fun kv => kv.1 == tok)).map Prod.snd

/-- The fresh-session path of `CreateSession`: construct, start (`running`)
and store the new session under the project id. -/
def createFresh (st : EngineState) (pid : String) : EngineState × Nat :=
  ({ sessions := (pid, st.next) :: st.sessions,
     objs := (st.next, ⟨st.next, pid, SessionStatus.running⟩) :: st.objs,
     next := st.next + 1 }, st.next)

/-- Go `DefaultEngine.CreateSession`: an existing running session is returned
as is; a terminal one is deleted before a fresh session is created. -/
def createSession (st : EngineState) (pid : String) : EngineState × Nat :=
  match st.sessions.find? (fun kv => kv.1 == pid) with
  | some kv =>
    if (st.getObj kv.2).map SessionObj.status = some SessionStatus.running then
      (st, kv.2)
    else
      createFresh { st with sessions := st.sessions.filter (fun e => !(e.1 == pid)) } pid
  | none => createFresh st pid

/-- Go `PTYSession.Stop` or the wait-loop demotion observed on a session
object: the terminal transition to `stopped`. -/
def setStatus (st : EngineState) (tok : Nat) (s : SessionStatus) : EngineState :=
  { st with objs := st.objs.map (fun kv => if kv.1 = tok then (kv.1, { kv.2 with status := s }) else kv) }

/-- Go `DefaultEngine.CloseSession`: stop the registered session and remove it
from the registry; absent ids are a no-op. -/
def closeSession (st : EngineState) (pid : String) : EngineState :=
  match st.sessions.find? (fun kv => kv.1 == pid) with
  | some kv =>
    { setStatus st kv.2 SessionStatus.stopped with
        sessions := st.sessions.filter (fun e => !(e.1 == pid)) }
  | none => st

/-- Engine states reachable from the empty registry through the engine's
operations. -/
inductive EngineReach : EngineState → Prop where
  | init : EngineReach ⟨[], [], 0⟩
  | create (st : EngineState) (pid : String) :
      EngineReach st → EngineReach (createSession st pid).1
  | stop (st : EngineState) (tok : Nat) :
      EngineReach st → EngineReach (setStatus st tok SessionStatus.stopped)
  | close (st : EngineState) (pid : String) :
      EngineReach st → EngineReach (closeSession st pid)

def keysNodup (l : List (String × Nat)) : Prop :=
  (l.map Prod.fst).Nodup

/-! ## PTY session stop and read loop (internal/runtime/session.go)

`Stop` under the session lock: a no-op unless `running`; otherwise it
closes the done channel through `sync.Once`, cancels the context, closes
the PTY master, kills the process and sets `stopped`.  The read loop is a
function of the sequence of its observations: each iteration either sees
the done channel ready (exits without touching the output channel) or gets
a read result (data is recorded into the ring buffer; an error closes the
output channel and exits).  Close operations are counted so that
"closed at most/exactly once" is expressible. -/
structure PTYState where
  status : SessionStatus
  doneClosed : Bool
  doneCloseCount : Nat
  cancelCount : Nat
  ptmxClosed : Bool
  killCount : Nat
  outputClosed : Bool
  outputCloseCount : Nat
  deriving Repr, DecidableEq

/-- A fresh session right after `Start` succeeded. -/
def PTYState.started : PTYState :=
  ⟨SessionStatus.running, false, 0, 0, false, 0, false, 0⟩

/-- Go `PTYSession.Stop`. -/
def PTYState.stop (s : PTYState) : PTYState :=
  if ¬ (s.status = SessionStatus.running) then s
  else
    let s1 :=
      if s.doneClosed then s
      else { s with doneClosed := true, doneCloseCount := s.doneCloseCount + 1 }
    { s1 with cancelCount := s1.cancelCount + 1, ptmxClosed := true,
              killCount := s1.killCount + 1, status := SessionStatus.stopped }

/-- One observation of the read loop's `select`/`Read`. -/
inductive ReadEv where
  | doneReady
  | readData (chunk : List UInt8)
  | readErr
  deriving Repr, DecidableEq

/-- Go `PTYSession.readLoop` over a finite observation sequence.  `doneReady`
exits without closing the output channel; a read error demotes a running
session to `stopped`, closes the output channel once and exits; data is
recorded into the ring buffer and the loop continues. -/
def readLoop : PTYState × RingBuffer → List ReadEv → PTYState × RingBuffer
  | st, [] => st
  | (s, buf), ev :: rest =>
    match ev with
    | ReadEv.doneReady => (s, buf)
    | ReadEv.readErr =>
      let s1 := if s.status = SessionStatus.running
        then { s with status := SessionStatus.stopped } else s
      ({ s1 with outputClosed := true, outputCloseCount := s1.outputCloseCount + 1 }, buf)
    | ReadEv.readData chunk => readLoop (s, buf.write chunk) rest

/-! ## A small regular-expression engine

The watcher and the extractor use Go `regexp` patterns only through
`MatchString` (does any substring match).  The engine below decides that:
a backtracking matcher in continuation style with a fuel bound on the
recursion depth; every pattern is transliterated into an explicit syntax
tree.  Case-insensitive `(?i)` patterns are built from case-folding
character nodes.  `reSearch` tries every start position, which is Go
`MatchString` semantics; `bos`/`eos`/`wordB` are the `^`, `$` and `\b`
zero-width assertions (`^`/`$` match only at text boundaries since `(?m)`
is never used; `\b` is RE2's ASCII word boundary). -/
inductive RE where
  | eps
  | sym (p : Char → Bool)
  | cat (a b : RE)
  | alt (a b : RE)
  | star (a : RE)
  | bos
  | eos
  | wordB

def RE.size : RE → Nat
  | .eps => 1
  | .sym _ => 1
  | .cat a b => a.size + b.size + 1
  | .alt a b => a.size + b.size + 1
  | .star a => a.size + 1
  | .bos => 1
  | .eos => 1
  | .wordB => 1

def isWordChar (c : Char) : Bool :=
  (decide ('0' ≤ c) && decide (c ≤ '9')) || (decide ('a' ≤ c) && decide (c ≤ 'z')) ||
  (decide ('A' ≤ c) && decide (c ≤ 'Z')) || decide (c = '_')

def wordBoundaryAt (s : Array Char) (i : Nat) : Bool :=
  let before := if h : 0 < i ∧ i ≤ s.size then isWordChar (s.get ⟨i - 1, by omega⟩) else false
  let after := if h : i < s.size then isWordChar (s.get ⟨i, h⟩) else false
  before != after

def reMatch (fuel : Nat) (r : RE) (s : Array Char) (i : Nat) (k : Nat → Bool) : Bool :=
  match fuel with
  | 0 => false
  | fuel + 1 =>
    match r with
    | .eps => k i
    | .sym p => if h : i < s.size then p (s.get ⟨i, h⟩) && k (i + 1) else false
    | .cat a b => reMatch fuel a s i (fun j => reMatch fuel b s j k)
    | .alt a b => reMatch fuel a s i k || reMatch fuel b s i k
    | .star a =>
      k i || reMatch fuel a s i (fun j => if i < j then reMatch fuel (RE.star a) s j k else false)
    | .bos => decide (i = 0) && k i
    | .eos => decide (i = s.size) && k i
    | .wordB => wordBoundaryAt s i && k i

def reFuel (r : RE) (n : Nat) : Nat :=
  (r.size + 2) * (n + 2) + 16

/-- Go `MatchString`: some substring matches. -/
def reSearch (r : RE) (s : List Char) : Bool :=
  let a := s.toArray
  (List.range (a.size + 1)).any (fun i => reMatch (reFuel r a.size) r a i (fun _ => true))

def chr (c : Char) : RE := .sym (fun x => x = c)

/-- A case-insensitive literal character, for `(?i)` patterns. -/
def chrCI (c : Char) : RE := .sym (fun x => x.toLower = c.toLower)

def strRe (s : String) : RE :=
  s.toList.foldr (fun c acc => RE.cat (chr c) acc) RE.eps

def strCI (s : String) : RE :=
  s.toList.foldr (fun c acc => RE.cat (chrCI c) acc) RE.eps

def reOpt (r : RE) : RE := .alt r .eps

def rePlus (r : RE) : RE := .cat r (.star r)

/-- Go `.`: any character but newline. -/
def reDot : RE := .sym (fun c => !(c = '\n'))

def isDigitChar (c : Char) : Bool := decide ('0' ≤ c) && decide (c ≤ '9')

/-- Go `\s`: `[\t\n\f\r ]`. -/
def isGoWhite (c : Char) : Bool :=
  c = ' ' || c = '\t' || c = '\n' || c = '\r' || c.toNat = 12 || c.toNat = 11

def reDigits : RE := rePlus (.sym isDigitChar)

def reWhiteStar : RE := .star (.sym isGoWhite)

/-! ## Output watcher (the ui watcher source file)

`Process` is modelled as a pure function of the watcher state, the frame
bytes (as text) and the current time in seconds.  Go maps used for the
dedup table are association lists with map semantics (set removes the old
binding).  `ansi.Strip` is an external library; it is modelled as a
stripper of ESC-introduced sequences and is the identity on frames without
ESC bytes. -/
def reInputRequired : RE :=
  RE.alt (RE.cat (chr '[') (RE.cat (chrCI 'y') (RE.cat (chr '/') (RE.cat (chrCI 'n') (chr ']')))))
    (RE.alt (RE.cat (chr '(') (RE.cat (strCI "y/n") (chr ')')))
      (RE.alt (RE.cat RE.wordB (RE.cat (strCI "press enter") RE.wordB))
        (RE.alt
          (RE.cat RE.wordB (RE.cat (strCI "requires your ")
            (RE.cat (RE.alt (strCI "approval") (strCI "confirmation")) RE.wordB)))
          (RE.cat RE.wordB (RE.cat (strCI "need")
            (RE.cat (reOpt (chrCI 's')) (RE.cat (strCI " your input") RE.wordB)))))))

def reCompleted : RE :=
  RE.alt
    (RE.cat RE.wordB (RE.cat (strCI "task ")
      (RE.cat (RE.alt (strCI "finished") (strCI "complete")) RE.wordB)))
    (RE.cat RE.wordB (RE.cat (strCI "cost:") (RE.cat reWhiteStar (chr '$'))))

def reError : RE :=
  RE.alt (RE.cat RE.wordB (RE.cat (strCI "error:") RE.wordB))
    (RE.alt (strCI "context window exceeded") (strCI "traceback"))

def reCommandApproval : RE :=
  RE.alt (RE.cat RE.wordB (RE.cat (strCI "do you want to run") RE.wordB))
    (RE.alt
      (RE.cat RE.wordB (RE.cat (strCI "run ")
        (RE.cat (RE.alt (strCI "these") (strCI "the"))
          (RE.cat (strCI " command") (RE.cat (reOpt (chrCI 's')) RE.wordB)))))
      (RE.alt
        (RE.cat RE.wordB (RE.cat (strCI "execute ")
          (RE.cat (RE.alt (strCI "these") (strCI "the"))
            (RE.cat (strCI " command") (RE.cat (reOpt (chrCI 's')) RE.wordB)))))
        (RE.cat RE.wordB (RE.cat (strCI "command")
          (RE.cat RE.wordB (RE.cat (RE.star reDot)
            (RE.cat (chr '[') (RE.cat (chrCI 'y') (RE.cat (chr '/')
              (RE.cat (chrCI 'n') (chr ']')))))))))))

/-- Case-insensitive literal test, for hand-rolled submatch patterns. -/
def ciPre (pat : String) (cs : List Char) : Bool :=
  pat.toList.isPrefixOf (cs.map Char.toLower)

/-- The separator class `[\s:：-]` of the notify-line patterns. -/
def isNotifySep (c : Char) : Bool :=
  isGoWhite c || c = ':' || c = '：' || c = '-'

/-- Pattern `[\s:：-]+(.+)$` with Go backtracking: at least one separator, then a
nonempty message running to the end of the text (`.` cannot cross a
newline; when everything left is separators, backtracking surrenders the
last one as the message). -/
def sepMsg (cs : List Char) : Option (List Char) :=
  let seps := cs.takeWhile isNotifySep
  let rest := cs.drop seps.length
  if seps.length = 0 then none
  else if !(rest = []) then (if rest.contains '\n' then none else some rest)
  else if 2 ≤ seps.length then some (seps.drop (seps.length - 1))
  else none

/-- Go `reNotifyLine` = `(?i)^\s*(?:\[notify\]|notify(?:ication)?)[\s:：-]+(.+)$`;
returns the submatch `m[1]` when the line matches. -/
def matchNotifyLine (line : List Char) : Option (List Char) :=
  let cs := line.dropWhile isGoWhite
  if ciPre "[notify]" cs then sepMsg (cs.drop 8)
  else if ciPre "notifyication" cs then
    match sepMsg (cs.drop 13) with
    | some m => some m
    | Option.none => sepMsg (cs.drop 6)
  else if ciPre "notify" cs then sepMsg (cs.drop 6)
  else none

/-- Go `reVibeNotify` = `(?i)^\s*vibecode(?:\s+notify)?[\s:：-]+(.+)$`; returns
the submatch `m[1]` when the line matches. -/
def matchVibeNotify (line : List Char) : Option (List Char) :=
  let cs := line.dropWhile isGoWhite
  if ciPre "vibecode" cs then
    let cs2 := cs.drop 8
    let w := cs2.takeWhile isGoWhite
    let withTag :=
      if 1 ≤ w.length && ciPre "notify" (cs2.drop w.length) then
        sepMsg (cs2.drop (w.length + 6))
      else none
    match withTag with
    | some m => some m
    | Option.none => sepMsg cs2
  else none

/-- An event as produced by the watcher: type, title, message (project and
timestamp are attached by `Process`). -/
structure EvShell where
  type : String
  title : String
  message : String
  deriving Repr, DecidableEq

structure WatcherEvent where
  type : String
  title : String
  message : String
  projectID : String
  projectName : String
  timestamp : Nat
  deriving Repr, DecidableEq

structure OutputWatcher where
  oscTail : List Char
  textTail : List Char
  lastEvents : List (String × Nat)
  pendingAutoReply : String
  pendingAutoTurn : Bool
  deriving Repr, DecidableEq

def newOutputWatcher : OutputWatcher := ⟨[], [], [], "", false⟩

def mapGetNat (m : List (String × Nat)) (k : String) : Option Nat :=
  (m.find? (fun kv => kv.1 == k)).map Prod.snd

def mapSetNat (m : List (String × Nat)) (k : String) (v : Nat) : List (String × Nat) :=
  (k, v) :: m.filter (fun kv => !(kv.1 == k))

/-- Go `oscTerminator`: first BEL or ST terminator; returns the content before
it and the remainder after it. -/
def findOscTerm : List Char → Option (List Char × List Char)
  | [] => none
  | c :: cs =>
    if c = Char.ofNat 7 then some ([], cs)
    else if c = Char.ofNat 27 ∧ cs.head? = some '\\' then some ([], cs.tail)
    else (findOscTerm cs).map (fun p => (c :: p.1, p.2))

/-- Go `decodeOscNotification`. -/
def decodeOsc (content : List Char) : List EvShell :=
  let parts := splitChar ';' content
  match parts with
  | [] => []
  | p0 :: rest =>
    let tag := trimChars p0
    if tag = ['9'] then
      let msg := trimChars (List.intercalate [';'] rest)
      if msg = [] then [] else [⟨"notify", "Notification", String.mk msg⟩]
    else if tag = ['7', '7', '7'] then
      match rest with
      | p1 :: p2 :: restMsg =>
        if trimChars p1 = "notify".toList then
          let title := trimChars p2
          let msg := trimChars (List.intercalate [';'] restMsg)
          if msg = [] ∧ title = [] then []
          else [⟨"notify", String.mk title, String.mk msg⟩]
        else []
      | _ => []
    else []

/-- Go `extractOscNotifications`: scan for OSC sequences, decode the
terminated ones, and return the unterminated trailing suffix. -/
def extractOscLoop : Nat → List Char → List EvShell → List EvShell × List Char
  | 0, cs, acc => (acc, cs)
  | _ + 1, [], acc => (acc, [])
  | fuel + 1, c :: rest, acc =>
    if c = Char.ofNat 27 ∧ rest.head? = some ']' then
      match findOscTerm rest.tail with
      | Option.none => (acc, c :: rest)
      | some (content, after) => extractOscLoop fuel after (acc ++ decodeOsc content)
    else extractOscLoop fuel rest acc

def extractOscNotifications (input : List Char) : List EvShell × List Char :=
  extractOscLoop (input.length + 1) input []

/-- Go `trimTail`. -/
def trimTail (s : List Char) (limit : Nat) : List Char :=
  if s.length ≤ limit then s else s.drop (s.length - limit)

/-- Go `tailLines`. -/
def tailLines (s : List Char) (max : Nat) : List (List Char) :=
  let lines := splitChar '\n' s
  if lines.length ≤ max then lines else lines.drop (lines.length - max)

/-- Go `shouldAutoApprove`: profile non-nil with level vibe or yolo. -/
def shouldAutoApprove (profile? : Option Profile) : Bool :=
  match profile? with
  | Option.none => false
  | some p =>
    match p.autoApprove with
    | AutoApprove.vibe => true
    | AutoApprove.yolo => true
    | _ => false

/-- Go `outputWatcher.shouldAutoReply` with its 8-second cooldown. -/
def shouldAutoReply (w : OutputWatcher) (line : List Char) (now : Nat) :
    Bool × OutputWatcher :=
  let key := "autoapprove|" ++ String.mk line
  match mapGetNat w.lastEvents key with
  | some last =>
    if now < last + 8 then (false, w)
    else (true, { w with lastEvents := mapSetNat w.lastEvents key now })
  | Option.none => (true, { w with lastEvents := mapSetNat w.lastEvents key now })

/-- Go `outputWatcher.shouldFire` with its 12-second cooldown and lazy pruning. -/
def shouldFire (w : OutputWatcher) (ev : WatcherEvent) (now : Nat) :
    Bool × OutputWatcher :=
  let key := ev.type ++ "|" ++ ev.title ++ "|" ++ ev.message
  match mapGetNat w.lastEvents key with
  | some last =>
    if now < last + 12 then (false, w)
    else
      let m1 := mapSetNat w.lastEvents key now
      let m2 := if 128 < m1.length then m1.filter (fun kv => decide (now ≤ kv.2 + 12)) else m1
      (true, { w with lastEvents := m2 })
  | Option.none =>
    let m1 := mapSetNat w.lastEvents key now
    let m2 := if 128 < m1.length then m1.filter (fun kv => decide (now ≤ kv.2 + 12)) else m1
    (true, { w with lastEvents := m2 })

/-- Go `appendEventIfNew`. -/
def appendEventIfNew (events : List WatcherEvent) (w : OutputWatcher) (sh : EvShell)
    (projectID projectName : String) (now : Nat) : List WatcherEvent × OutputWatcher :=
  let ev : WatcherEvent := ⟨sh.type, sh.title, sh.message, projectID, projectName, now⟩
  let fire := shouldFire w ev now
  if fire.1 then (events ++ [ev], fire.2) else (events, fire.2)

/-- Generic driver for Go `ReplaceAllString` with a constant replacement:
leftmost match, continue after it; `matchAt` returns the remainder after a
match starting at the head.  With an empty replacement this is the strip
driver. -/
def scanReplace (matchAt : List Char → Option (List Char)) (repl : List Char) :
    Nat → List Char → List Char
  | 0, cs => cs
  | _ + 1, [] => []
  | fuel + 1, c :: cs =>
    match matchAt (c :: cs) with
    | some rest => repl ++ scanReplace matchAt repl fuel rest
    | Option.none => c :: scanReplace matchAt repl fuel cs

/-- Models the external `charmbracelet/x/ansi` `Strip`: removes CSI, OSC
and other ESC-introduced sequences; the identity on text without ESC
bytes. -/
def matchAnsiAt (cs : List Char) : Option (List Char) :=
  match cs with
  | [] => none
  | e :: rest =>
    if e = Char.ofNat 27 then
      match rest with
      | '[' :: r2 =>
        let ps := r2.takeWhile (fun c => 0x20 ≤ c.toNat ∧ c.toNat ≤ 0x3F)
        (match r2.drop ps.length with
         | f :: r3 => if 0x40 ≤ f.toNat ∧ f.toNat ≤ 0x7E then some r3 else none
         | [] => none)
      | ']' :: r2 =>
        (match findOscTerm r2 with
         | some p => some p.2
         | Option.none => none)
      | _ :: r2 => some r2
      | [] => none
    else none

def ansiStrip (cs : List Char) : List Char :=
  scanReplace matchAnsiAt [] cs.length cs

/-- The body of the `for _, line := range lines` loop of
`outputWatcher.Process`: auto-approval staging, then the classification
chain. -/
def lineStep (profile? : Option Profile) (projectID projectName : String) (now : Nat)
    (acc : OutputWatcher × List WatcherEvent) (line0 : List Char) :
    OutputWatcher × List WatcherEvent :=
  let w := acc.1
  let events := acc.2
  let line := trimChars line0
  if line = [] then (w, events)
  else
    let afterApprove :=
      if shouldAutoApprove profile? && decide (w.pendingAutoReply = "") &&
         reSearch reInputRequired line && reSearch reCommandApproval line then
        let sar := shouldAutoReply w line now
        if sar.1 then { sar.2 with pendingAutoReply := "y\r" } else sar.2
      else w
    if reSearch reInputRequired line then
      let r := appendEventIfNew events afterApprove
        ⟨"input_required", "Input required", String.mk line⟩ projectID projectName now
      (r.2, r.1)
    else if reSearch reError line then
      let r := appendEventIfNew events afterApprove
        ⟨"error", "Error", String.mk line⟩ projectID projectName now
      (r.2, r.1)
    else if reSearch reCompleted line then
      let r := appendEventIfNew events afterApprove
        ⟨"task_completed", "Task completed", String.mk line⟩ projectID projectName now
      (r.2, r.1)
    else
      match matchVibeNotify line with
      | some m =>
        let r := appendEventIfNew events afterApprove
          ⟨"notify", "Notification", String.mk (trimChars m)⟩ projectID projectName now
        (r.2, r.1)
      | Option.none =>
        match matchNotifyLine line with
        | some m =>
          let r := appendEventIfNew events afterApprove
            ⟨"notify", "Notification", String.mk (trimChars m)⟩ projectID projectName now
          (r.2, r.1)
        | Option.none => (afterApprove, events)

/-- Go `outputWatcher.Process`. -/
def watcherProcess (w : OutputWatcher) (projectID projectName : String)
    (profile? : Option Profile) (data : List Char) (now : Nat) :
    OutputWatcher × List WatcherEvent :=
  if data = [] then (w, [])
  else
    let input := w.oscTail ++ data
    let osc := extractOscNotifications input
    let w1 := { w with oscTail := trimTail osc.2 2048 }
    let oscRes := osc.1.foldl (fun acc sh =>
      let r := appendEventIfNew acc.2 acc.1 sh projectID projectName now
      (r.2, r.1)) (w1, ([] : List WatcherEvent))
    let plain := ansiStrip data
    let afterPlain :=
      if plain = [] then oscRes
      else
        let plain2 := plain.map (fun c => if c = '\r' then '\n' else c)
        let combined := oscRes.1.textTail ++ plain2
        let w3 := { oscRes.1 with textTail := trimTail combined 4096 }
        let lines := tailLines combined 12
        lines.foldl (lineStep profile? projectID projectName now) (w3, oscRes.2)
    if input.contains (Char.ofNat 7) then
      let r := appendEventIfNew afterPlain.2 afterPlain.1
        ⟨"notify", "Bell", "Terminal bell"⟩ projectID projectName now
      (r.2, r.1)
    else afterPlain

/-- Go `outputWatcher.ConsumeAutoReply`. -/
def consumeAutoReply (w : OutputWatcher) : String × OutputWatcher :=
  if w.pendingAutoReply = "" then ("", w)
  else (w.pendingAutoReply, { w with pendingAutoReply := "" })

/-- The auto-reply portion of the `SessionOutputMsg` handler in
internal/ui/update.go: consume the staged reply and, when the session is
running, write it back to the session unconditionally. -/
def autoReplyWrites (w : OutputWatcher) (sessionRunning : Bool) :
    List String × OutputWatcher :=
  let c := consumeAutoReply w
  if !(c.1 = "") && sessionRunning then ([c.1], c.2) else ([], c.2)

/-- Go `strings.Contains` on character lists. -/
def listContainsSub (hay needle : List Char) : Bool :=
  (List.range (hay.length + 1)).any (fun i => needle.isPrefixOf (hay.drop i))

/-! ## Conclusion extractor (the runtime extract source file)

`CleanOutput` applies the five strip regexes in source order; each is a
dedicated leftmost-match scanner (their character classes exclude the
respective terminators, so the greedy match needs no backtracking).  Go
`len(...)` on strings counts bytes, so the "substantial line" and block
thresholds and the border ratio are measured on the UTF-8 encoding. -/
def matchCSIAt (cs : List Char) : Option (List Char) :=
  match cs with
  | e :: '[' :: r2 =>
    if e = Char.ofNat 27 then
      let ps := r2.takeWhile (fun c => isDigitChar c || c = ';' || c = '?')
      match r2.drop ps.length with
      | f :: r3 =>
        if (decide ('a' ≤ f) && decide (f ≤ 'z')) || (decide ('A' ≤ f) && decide (f ≤ 'Z'))
        then some r3 else none
      | [] => none
    else none
  | _ => none

/-- Go `oscRegex`: the content class excludes both BEL and ESC, so the first
BEL or ST must terminate the sequence. -/
def matchOSCAt (cs : List Char) : Option (List Char) :=
  match cs with
  | e :: ']' :: r2 =>
    if e = Char.ofNat 27 then
      let content := r2.takeWhile (fun c => !(c = Char.ofNat 7) && !(c = Char.ofNat 27))
      match r2.drop content.length with
      | t :: r3 =>
        if t = Char.ofNat 7 then some r3
        else
          match r3 with
          | '\\' :: r4 => some r4
          | _ => none
      | [] => none
    else none
  | _ => none

def matchDCSAt (cs : List Char) : Option (List Char) :=
  match cs with
  | e :: k :: r2 =>
    if e = Char.ofNat 27 && (k = 'P' || k = 'X' || k = '^' || k = '_') then
      let content := r2.takeWhile (fun c => !(c = Char.ofNat 27))
      match r2.drop content.length with
      | t :: '\\' :: r3 => if t = Char.ofNat 27 then some r3 else none
      | _ => none
    else none
  | _ => none

def matchSingleEscAt (cs : List Char) : Option (List Char) :=
  match cs with
  | e :: k :: r2 =>
    if e = Char.ofNat 27 && (k = '(' || k = ')' || k = '#' || k = '%') then
      match r2 with
      | c :: r3 =>
        if (decide ('a' ≤ c) && decide (c ≤ 'z')) || (decide ('A' ≤ c) && decide (c ≤ 'Z')) ||
           isDigitChar c
        then some r3 else some r2
      | [] => some r2
    else none
  | _ => none

def matchMouseAt (cs : List Char) : Option (List Char) :=
  match cs with
  | e :: '[' :: r2 =>
    if e = Char.ofNat 27 then
      match r2 with
      | 'M' :: a :: b :: c :: r3 =>
        if !(a = '\n') && !(b = '\n') && !(c = '\n') then some r3 else none
      | '<' :: r3 =>
        let ps := r3.takeWhile (fun c => isDigitChar c || c = ';')
        (match r3.drop ps.length with
         | f :: r4 => if f = 'm' || f = 'M' then some r4 else none
         | [] => none)
      | _ => none
    else none
  | _ => none

/-- Go `unicode.IsControl` (category Cc). -/
def goIsControl (c : Char) : Bool :=
  decide (c.toNat < 0x20) || decide (c.toNat = 0x7F) ||
  (decide (0x80 ≤ c.toNat) && decide (c.toNat ≤ 0x9F))

/-- Go `CleanOutput` from the extractor source. -/
def CleanOutput (input : List Char) : List Char :=
  let c1 := scanReplace matchCSIAt [] input.length input
  let c2 := scanReplace matchOSCAt [] c1.length c1
  let c3 := scanReplace matchDCSAt [] c2.length c2
  let c4 := scanReplace matchSingleEscAt [] c3.length c3
  let c5 := scanReplace matchMouseAt [] c4.length c4
  let c6 := c5.filter (fun c => !(c = Char.ofNat 27))
  let c7 := c6.filter (fun c => c = '\n' || c = '\t' || c = '\r' || !(goIsControl c))
  trimChars c7

def vibeMarker : List Char := ":::VIBE_OUTPUT:::".toList

/-- Go `strings.LastIndex` (as a character position; the marker is ASCII,
so the suffix after it is the same whether indices count bytes or runes). -/
def lastIndexSub (hay needle : List Char) : Option Nat :=
  ((List.range (hay.length + 1)).filter (fun i => needle.isPrefixOf (hay.drop i))).getLast?

/-- Go `extractFromDelimiter`. -/
def extractFromDelimiter (input : List Char) : List Char × Bool :=
  match lastIndexSub input vibeMarker with
  | some idx => (trimChars (input.drop (idx + vibeMarker.length)), true)
  | Option.none => (input, false)

def utf8Len (cs : List Char) : Nat := (utf8 cs).length

def bumpCount (acc : List (List Char × Nat)) (k : List Char) :
    List (List Char × Nat) :=
  if acc.any (fun kv => kv.1 == k) then
    acc.map (fun kv => if kv.1 = k then (kv.1, kv.2 + 1) else kv)
  else acc ++ [(k, 1)]

/-- Go `isolateFinalFrame`.  The Go code picks the most frequent substantial
line by ranging over a map, whose iteration order is unspecified; here the
candidates are visited in first-seen order (ties between equally frequent
separators may differ from a given Go run, which the claims never rely
on). -/
def isolateFinalFrame (input : List Char) : List Char :=
  let lines := splitChar '\n' input
  if lines.length < 10 then input
  else
    let counts := lines.foldl (fun acc line =>
      let t := trimChars line
      if 10 < utf8Len t then bumpCount acc t else acc) []
    let best := counts.foldl (fun (best : List Char × Nat) kv =>
      if 2 < kv.2 ∧ best.2 < kv.2 then kv else best) ([], 0)
    if best.1 = [] then input
    else
      let step := lines.foldl (fun (acc : List (List Char) × List Char) line =>
        let trimmed := trimChars line
        if trimmed = best.1 then
          (if !(acc.2 = []) then (acc.1 ++ [acc.2], []) else (acc.1, []))
        else (acc.1, acc.2 ++ line ++ ['\n'])) ([], [])
      let finalBlocks := if !(step.2 = []) then step.1 ++ [step.2] else step.1
      let found := finalBlocks.reverse.find? (fun b => 20 < utf8Len (trimChars b))
      match found with
      | some b => trimChars b
      | Option.none => input

def rep0to3 (r : RE) : RE := RE.cat (reOpt r) (RE.cat (reOpt r) (reOpt r))

def rep5plus (r : RE) : RE :=
  RE.cat r (RE.cat r (RE.cat r (RE.cat r (RE.cat r (RE.star r)))))

def reAlts (rs : List RE) : RE :=
  match rs with
  | [] => RE.sym (fun _ => false)
  | [r] => r
  | r :: rest => RE.alt r (reAlts rest)

def reCats (rs : List RE) : RE := rs.foldr RE.cat RE.eps

def isBorderRune (c : Char) : Bool :=
  c = '─' || c = '═' || c = '-' || c = '_' || c = '│' || c = '┃' || c = '║' ||
  c = '╔' || c = '╗' || c = '╚' || c = '╝'

/-- Go `removeTUINoise`.  The border-ratio test compares a rune count against
a byte length through float64 division in Go; for these magnitudes the
comparison agrees with the exact rational one modelled here. -/
def removeTUINoise (input : List Char) : List Char :=
  let lines := splitChar '\n' input
  let result := lines.filter (fun line =>
    let trimmed := trimChars line
    let tipsHit := reSearch (reCats [RE.bos,
      reAlts [strCI "tips", strCI "hint", strCI "usage", strCI "入门", strCI "提示"],
      RE.alt (chr ':') (chr '：')]) trimmed
    let keyHit := reSearch (reCats [reAlts [strCI "ctrl", strCI "alt", strCI "esc"],
      reWhiteStar, chr '+']) trimmed
    let loadedHit := reSearch (reCats [RE.bos,
      reAlts [strCI "loaded", strCI "context", strCI "已加载"],
      RE.alt (chr ':') (chr '：')]) trimmed
    let borderChars := (trimmed.filter isBorderRune).length
    let borderHit := !(trimmed = []) && decide (4 * utf8Len trimmed < 5 * borderChars)
    !(tipsHit || keyHit || loadedHit || borderHit))
  List.intercalate ['\n'] result

def chainPromptHeader : List Char :=
  "Based on the above context, please continue.".toList

def chainPromptInstruction : List Char :=
  "IMPORTANT: Please start your output with ".toList ++ [Char.ofNat 39] ++
  ":::VIBE_OUTPUT:::".toList ++ [Char.ofNat 39] ++ " so I can extract it reliably.".toList

def matchPercentAt (cs : List Char) : Option (List Char) :=
  let ds := cs.takeWhile isDigitChar
  if ds = [] then none
  else
    match cs.drop ds.length with
    | '%' :: rest => some rest
    | _ => none

def matchTimeAt (cs : List Char) : Option (List Char) :=
  let d1 := cs.takeWhile isDigitChar
  if d1 = [] then none
  else
    let r1 := cs.drop d1.length
    match r1 with
    | ':' :: r2 =>
      let d2 := r2.takeWhile isDigitChar
      if d2 = [] then none
      else
        (match r2.drop d2.length with
         | ':' :: r3 =>
           let d3 := r3.takeWhile isDigitChar
           if d3 = [] then some (r2.drop d2.length) else some (r3.drop d3.length)
         | _ => some (r2.drop d2.length))
    | 's' :: r2 => some r2
    | 'm' :: 's' :: r2 => some r2
    | _ => none

/-- Go `normalizeDynamicContent`: percentages then times become placeholders. -/
def normalizeDynamicContent (line : List Char) : List Char :=
  let n1 := scanReplace matchPercentAt "<PCT>".toList line.length line
  scanReplace matchTimeAt "<TIME>".toList n1.length n1

def noiseRegexes : List RE :=
  [reCats [RE.bos, chr '>', reWhiteStar,
     reAlts [strCI "输入您的消息", strCI "type your message", strCI "enter your"]],
   reCats [RE.bos, chr '?', reWhiteStar, strCI "select"],
   reAlts [reCats [strCI "thinking", rep0to3 (chr '.')], strCI "smart mode",
     strCI "esc to cancel"],
   reCats [strCI "loading", rep0to3 (chr '.'), RE.star (RE.sym isDigitChar),
     reOpt (chrCI 's'), reOpt (chr ')')],
   reAlts [strCI "vibmux", reCats [strCI "glm-", reDigits, chr '.', reDigits],
     reCats [strCI "qwen", RE.star reDot, strCI "code"]],
   RE.sym (fun c => decide (0x2800 ≤ c.toNat) && decide (c.toNat ≤ 0x28FF)),
   reCats [RE.bos, reWhiteStar,
     rep5plus (RE.sym (fun c => c = '─' || c = '═' || c = '-' || c = '_')),
     reWhiteStar, RE.eos],
   reCats [RE.bos, reWhiteStar, chr '>', reWhiteStar, RE.eos],
   reCats [RE.bos, strCI "gemini", reWhiteStar, chr '>'],
   reCats [RE.bos,
     RE.star (RE.sym (fun c => isGoWhite c || c = '│' || c = '┃' || c = '|')), RE.eos],
   reCats [strCI "vibemux", reWhiteStar, chr '(', RE.star reDot],
   reCats [strCI "sandbox", reWhiteStar, chr '(', reDigits, chr '%'],
   reCats [RE.star reDot, rePlus (RE.sym isGoWhite), strCI "to",
     rePlus (RE.sym isGoWhite),
     reAlts [strCI "toggle", strCI "select", strCI "switch", strCI "cancel"],
     reOpt (chr ')'), reWhiteStar, RE.eos],
   reCats [RE.bos, chr '.', chr '.', chr '.', RE.star reDot,
     RE.alt (chr '\\') (chr '/'), RE.star reDot],
   reCats [rePlus (RE.sym isGoWhite), strCI "coder-model", reWhiteStar, RE.eos],
   reCats [rePlus (RE.sym isGoWhite), strCI "sandbox", reWhiteStar, RE.eos],
   reCats [strCI "context", rePlus (RE.sym isGoWhite), strCI "left",
     rePlus (RE.sym isGoWhite), reDigits],
   reCats [RE.bos, reWhiteStar, chr '-', reWhiteStar, reDigits, reWhiteStar, strCI "个",
     reWhiteStar, RE.star reDot, strCI "文件", reWhiteStar, RE.eos],
   reCats [RE.bos, reWhiteStar, chr '-', reWhiteStar, reDigits, reWhiteStar,
     strCI "file(s)", reWhiteStar, RE.eos]]

/-- Go `filterNoiseLines`: blank lines and lines matching any noise pattern
(or starting with the chain-injection boilerplate) are removed. -/
def filterNoiseLines (lines : List (List Char)) : List (List Char) :=
  lines.filter (fun line =>
    let trimmed := trimChars line
    if trimmed = [] then false
    else
      !(noiseRegexes.any (fun p => reSearch p trimmed) ||
        chainPromptHeader.isPrefixOf trimmed || chainPromptInstruction.isPrefixOf trimmed))

def dedupAux (prev : List Char) : List (List Char) → List (List Char)
  | [] => []
  | cur :: rest =>
    if normalizeDynamicContent (trimChars cur) = normalizeDynamicContent (trimChars prev)
    then dedupAux cur rest
    else cur :: dedupAux cur rest

/-- Go `deduplicateConsecutive` (comparison after dynamic-content
normalization). -/
def deduplicateConsecutive (lines : List (List Char)) : List (List Char) :=
  match lines with
  | [] => []
  | l0 :: rest => l0 :: dedupAux l0 rest

/-- Steps 4 and 5 of `ExtractConclusion`, applied to both strategies:
TUI-noise removal, noise-line filtering and consecutive deduplication. -/
def commonCleanup (content : List Char) : List Char :=
  List.intercalate ['\n']
    (deduplicateConsecutive (filterNoiseLines (splitChar '\n' (removeTUINoise content))))

/-- Go `ExtractConclusion`. -/
def ExtractConclusion (input : List Char) : List Char :=
  let clean := CleanOutput input
  let ed := extractFromDelimiter clean
  commonCleanup (if ed.2 then ed.1 else isolateFinalFrame clean)

theorem goCopy_length (dst : List UInt8) (i : Nat) (src : List UInt8) :
    (goCopy dst i src).length = dst.length := by
  simp only [goCopy, List.length_append, List.length_take, List.length_drop]
  omega

theorem goCopy_fits (dst src : List UInt8) (i : Nat) (hle : i + src.length ≤ dst.length) :
    goCopy dst i src = dst.take i ++ src ++ dst.drop (i + src.length) := by
  have h1 : min (dst.length - i) src.length = src.length := by omega
  have h2 : src.take (dst.length - i) = src := List.take_of_length_le (by omega)
  rw [goCopy, h1, h2]

theorem listSuffix_of_le (l : List UInt8) (n : Nat) (hle : l.length ≤ n) :
    listSuffix l n = l := by
  simp [listSuffix, Nat.sub_eq_zero_of_le hle]

theorem listSuffix_append_long (h p : List UInt8) (N : Nat) (hp : N ≤ p.length) :
    listSuffix (h ++ p) N = listSuffix p N := by
  rw [listSuffix, listSuffix, List.length_append, List.drop_append_eq_append_drop,
    List.drop_eq_nil_of_le (by omega)]
  have h2 : h.length + p.length - N - h.length = p.length - N := by omega
  rw [h2, List.nil_append]

theorem listSuffix_append_short (h p : List UInt8) (N : Nat) (hNh : N ≤ h.length)
    (hpn : p.length ≤ N) :
    listSuffix (h ++ p) N = (listSuffix h N).drop p.length ++ p := by
  rw [listSuffix, listSuffix, List.length_append, List.drop_append_eq_append_drop,
    List.drop_drop]
  have h1 : h.length - N + p.length = h.length + p.length - N := by omega
  have h2 : h.length + p.length - N - h.length = 0 := by omega
  rw [h1, h2, List.drop_zero]

theorem rbinv_new (N : Nat) (hN : 0 < N) : RBInv N (RingBuffer.new N) [] := by
  have : ¬ N = 0 := Nat.pos_iff_ne_zero.mp hN
  constructor
  · simp [RingBuffer.new, this]
  constructor
  · simp [RingBuffer.new, this]
  · left
    simp [RingBuffer.new, this]
    omega

theorem drop_append_of_le (A B : List UInt8) (n : Nat) (hn : n ≤ A.length) :
    (A ++ B).drop n = A.drop n ++ B := by
  rw [List.drop_append_eq_append_drop, Nat.sub_eq_zero_of_le hn, List.drop_zero]

theorem rbinv_write (N : Nat) (hN : 0 < N) {r : RingBuffer} {h : List UInt8}
    (hinv : RBInv N r h) (p : List UInt8) : RBInv N (r.write p) (h ++ p) := by
  obtain ⟨hsz, hlen, hcase⟩ := hinv
  subst hsz
  by_cases hp0 : p.length = 0
  · have hpnil : p = [] := List.length_eq_zero.mp hp0
    subst hpnil
    rw [RingBuffer.write]
    simp only [List.length_nil, if_pos rfl, List.append_nil]
    exact ⟨rfl, hlen, hcase⟩
  · rw [RingBuffer.write, if_neg hp0]
    by_cases hbig : r.size ≤ p.length
    · rw [if_pos hbig]
      have hsrc : (p.drop (p.length - r.size)).length = r.size := by
        simp only [List.length_drop]; omega
      have hnil : r.data.drop r.size = [] :=
        List.drop_eq_nil_of_le (le_of_eq hlen)
      have hdata : goCopy r.data 0 (p.drop (p.length - r.size)) = p.drop (p.length - r.size) := by
        rw [goCopy_fits _ _ _ (by rw [hsrc, hlen]; omega), hsrc, List.take_zero,
          List.nil_append, Nat.zero_add, hnil, List.append_nil]
      refine ⟨rfl, by simpa [goCopy_length] using hlen, Or.inr ⟨rfl, rfl, hN, ?_, ?_⟩⟩
      · simp only [List.length_append]; omega
      · simp only [List.drop_zero, List.take_zero, List.append_nil, hdata]
        rw [listSuffix_append_long _ _ _ hbig, listSuffix]
    · rw [if_neg hbig]
      have hplt : p.length < r.size := by omega
      rcases hcase with ⟨hfull, hstart, hend, hhlt, htake⟩ | ⟨hfull, hse, helt, hNh, hrot⟩
      · -- buffer not yet full: start = 0, endPos = h.length
        have holdLen : r.lenLocked = h.length := by
          simp [RingBuffer.lenLocked, hfull, hstart, hend]
        have htake2 : r.data.take r.endPos = h := by rw [hend]; exact htake
        by_cases hfit : r.endPos + p.length ≤ r.size
        · have hdata : goCopy r.data r.endPos p =
              h ++ p ++ r.data.drop (r.endPos + p.length) := by
            rw [goCopy_fits _ _ _ (by omega), htake2]
          by_cases heq : r.endPos + p.length = r.size
          · -- single-segment copy exactly filling the buffer
            have hov : r.size ≤ r.lenLocked + p.length := by omega
            have hres : (if r.size ≤ r.lenLocked + p.length then
                  { r.writeFit p with full := true, start := (r.writeFit p).endPos }
                else r.writeFit p) =
                ⟨goCopy r.data r.endPos p, r.size, 0, 0, true⟩ := by
              rw [if_pos hov, RingBuffer.writeFit, if_pos hfit, if_pos heq]
            rw [hres]
            refine ⟨rfl, by simpa [goCopy_length] using hlen, Or.inr ⟨rfl, rfl, hN, ?_, ?_⟩⟩
            · simp only [List.length_append]; omega
            · have hnil : r.data.drop (r.endPos + p.length) = [] :=
                List.drop_eq_nil_of_le (by omega)
              simp only [List.drop_zero, List.take_zero, List.append_nil, hdata, hnil]
              rw [listSuffix_of_le _ _ (by simp only [List.length_append]; omega)]
          · -- single-segment copy with room left over
            have hov : ¬ r.size ≤ r.lenLocked + p.length := by omega
            have hres : (if r.size ≤ r.lenLocked + p.length then
                  { r.writeFit p with full := true, start := (r.writeFit p).endPos }
                else r.writeFit p) =
                ⟨goCopy r.data r.endPos p, r.size, r.start, r.endPos + p.length, r.full⟩ := by
              rw [if_neg hov, RingBuffer.writeFit, if_pos hfit, if_neg heq]
            rw [hres]
            refine ⟨rfl, by simpa [goCopy_length] using hlen,
              Or.inl ⟨hfull, hstart, ?_, ?_, ?_⟩⟩
            · simp only [List.length_append]; omega
            · simp only [List.length_append]; omega
            · simp only [hdata, List.length_append, ← List.append_assoc]
              exact List.take_left' (by rw [List.length_append])
        · -- two-segment copy, necessarily overflowing
          have hov : r.size ≤ r.lenLocked + p.length := by omega
          have hres : (if r.size ≤ r.lenLocked + p.length then
                { r.writeFit p with full := true, start := (r.writeFit p).endPos }
              else r.writeFit p) =
              ⟨goCopy (goCopy r.data r.endPos (p.take (r.size - r.endPos))) 0
                  (p.drop (r.size - r.endPos)), r.size,
                p.length - (r.size - r.endPos), p.length - (r.size - r.endPos), true⟩ := by
            rw [if_pos hov, RingBuffer.writeFit, if_neg hfit]
          rw [hres]
          have hinner : goCopy r.data r.endPos (p.take (r.size - r.endPos)) =
              h ++ p.take (r.size - r.endPos) := by
            rw [goCopy_fits _ _ _ (by simp only [List.length_take]; omega), htake2]
            have hnil : r.data.drop (r.endPos + (p.take (r.size - r.endPos)).length) = [] :=
              List.drop_eq_nil_of_le (by simp only [List.length_take]; omega)
            rw [hnil, List.append_nil]
          have houter : goCopy (goCopy r.data r.endPos (p.take (r.size - r.endPos))) 0
                (p.drop (r.size - r.endPos)) =
              p.drop (r.size - r.endPos) ++
                (h ++ p.take (r.size - r.endPos)).drop (p.length - (r.size - r.endPos)) := by
            rw [hinner, goCopy_fits _ _ _ (by
              simp only [List.length_drop, List.length_append, List.length_take]; omega)]
            simp only [List.take_zero, List.nil_append, Nat.zero_add, List.length_drop]
          refine ⟨rfl, ?_, Or.inr ⟨rfl, rfl, ?_, ?_, ?_⟩⟩
          · simp only [goCopy_length]; exact hlen
          · show p.length - (r.size - r.endPos) < r.size
            omega
          · simp only [List.length_append]; omega
          · have hdlen : (p.drop (r.size - r.endPos)).length =
                p.length - (r.size - r.endPos) := List.length_drop _ _
            simp only [houter]
            rw [List.drop_left' hdlen, List.take_left' hdlen]
            have h2 : (h ++ p.take (r.size - r.endPos)).drop (p.length - (r.size - r.endPos)) =
                h.drop (p.length - (r.size - r.endPos)) ++ p.take (r.size - r.endPos) :=
              drop_append_of_le _ _ _ (by omega)
            rw [h2, List.append_assoc, List.take_append_drop]
            have h3 : listSuffix (h ++ p) r.size =
                h.drop (h.length + p.length - r.size) ++ p := by
              rw [listSuffix, List.length_append]
              exact drop_append_of_le _ _ _ (by omega)
            rw [h3]
            have hidx : h.length + p.length - r.size = p.length - (r.size - r.endPos) := by
              omega
            rw [hidx]
      · -- buffer already full: start = endPos, rotation is the trailing size bytes
        have holdLen : r.lenLocked = r.size := by simp [RingBuffer.lenLocked, hfull]
        have hov : r.size ≤ r.lenLocked + p.length := by omega
        have htarget : listSuffix (h ++ p) r.size =
            (r.data.drop r.endPos ++ r.data.take r.endPos).drop p.length ++ p := by
          rw [listSuffix_append_short _ _ _ hNh (by omega), hrot]
        by_cases hfit : r.endPos + p.length ≤ r.size
        · have hdata : goCopy r.data r.endPos p =
              r.data.take r.endPos ++ p ++ r.data.drop (r.endPos + p.length) := by
            rw [goCopy_fits _ _ _ (by omega)]
          by_cases heq : r.endPos + p.length = r.size
          · have hres : (if r.size ≤ r.lenLocked + p.length then
                  { r.writeFit p with full := true, start := (r.writeFit p).endPos }
                else r.writeFit p) =
                ⟨goCopy r.data r.endPos p, r.size, 0, 0, true⟩ := by
              rw [if_pos hov, RingBuffer.writeFit, if_pos hfit, if_pos heq]
            rw [hres]
            refine ⟨rfl, by simpa [goCopy_length] using hlen, Or.inr ⟨rfl, rfl, hN, ?_, ?_⟩⟩
            · simp only [List.length_append]; omega
            · have hnil : r.data.drop (r.endPos + p.length) = [] :=
                List.drop_eq_nil_of_le (by omega)
              simp only [List.drop_zero, List.take_zero, List.append_nil, hdata, hnil]
              rw [htarget, drop_append_of_le _ _ _ (by simp only [List.length_drop]; omega),
                List.drop_drop]
              have h1 : r.data.drop (r.endPos + p.length) = [] := hnil
              rw [h1]
              have h2 : List.drop (r.endPos + p.length) r.data = [] := hnil
              simp only [List.nil_append]
          · have hres : (if r.size ≤ r.lenLocked + p.length then
                  { r.writeFit p with full := true, start := (r.writeFit p).endPos }
                else r.writeFit p) =
                ⟨goCopy r.data r.endPos p, r.size, r.endPos + p.length,
                  r.endPos + p.length, true⟩ := by
              rw [if_pos hov, RingBuffer.writeFit, if_pos hfit, if_neg heq]
            rw [hres]
            refine ⟨rfl, by simpa [goCopy_length] using hlen, Or.inr ⟨rfl, rfl, ?_, ?_, ?_⟩⟩
            · show r.endPos + p.length < r.size
              omega
            · simp only [List.length_append]; omega
            · have hAlen : (r.data.take r.endPos ++ p).length = r.endPos + p.length := by
                simp only [List.length_append, List.length_take]; omega
              simp only [hdata, ← List.append_assoc]
              rw [List.drop_left' hAlen, List.take_left' hAlen]
              rw [htarget, drop_append_of_le _ _ _ (by simp only [List.length_drop]; omega),
                List.drop_drop, List.append_assoc]
        · have hres : (if r.size ≤ r.lenLocked + p.length then
                { r.writeFit p with full := true, start := (r.writeFit p).endPos }
              else r.writeFit p) =
              ⟨goCopy (goCopy r.data r.endPos (p.take (r.size - r.endPos))) 0
                  (p.drop (r.size - r.endPos)), r.size,
                p.length - (r.size - r.endPos), p.length - (r.size - r.endPos), true⟩ := by
            rw [if_pos hov, RingBuffer.writeFit, if_neg hfit]
          rw [hres]
          have hinner : goCopy r.data r.endPos (p.take (r.size - r.endPos)) =
              r.data.take r.endPos ++ p.take (r.size - r.endPos) := by
            rw [goCopy_fits _ _ _ (by simp only [List.length_take]; omega)]
            have hnil : r.data.drop (r.endPos + (p.take (r.size - r.endPos)).length) = [] :=
              List.drop_eq_nil_of_le (by simp only [List.length_take]; omega)
            rw [hnil, List.append_nil]
          have hinlen : (r.data.take r.endPos ++ p.take (r.size - r.endPos)).length = r.size := by
            simp only [List.length_append, List.length_take]; omega
          have houter : goCopy (goCopy r.data r.endPos (p.take (r.size - r.endPos))) 0
                (p.drop (r.size - r.endPos)) =
              p.drop (r.size - r.endPos) ++
                (r.data.take r.endPos ++ p.take (r.size - r.endPos)).drop
                  (p.length - (r.size - r.endPos)) := by
            rw [hinner, goCopy_fits _ _ _ (by
              simp only [List.length_drop, List.length_append, List.length_take]; omega)]
            simp only [List.take_zero, List.nil_append, Nat.zero_add, List.length_drop]
          refine ⟨rfl, ?_, Or.inr ⟨rfl, rfl, ?_, ?_, ?_⟩⟩
          · simp only [goCopy_length]; exact hlen
          · show p.length - (r.size - r.endPos) < r.size
            omega
          · simp only [List.length_append]; omega
          · have hdlen : (p.drop (r.size - r.endPos)).length =
                p.length - (r.size - r.endPos) := List.length_drop _ _
            simp only [houter]
            rw [List.drop_left' hdlen, List.take_left' hdlen]
            have h2 : (r.data.take r.endPos ++ p.take (r.size - r.endPos)).drop
                  (p.length - (r.size - r.endPos)) =
                (r.data.take r.endPos).drop (p.length - (r.size - r.endPos)) ++
                  p.take (r.size - r.endPos) :=
              drop_append_of_le _ _ _ (by simp only [List.length_take]; omega)
            rw [h2, List.append_assoc, List.take_append_drop]
            have h3 : (r.data.drop r.endPos ++ r.data.take r.endPos).drop p.length =
                (r.data.take r.endPos).drop (p.length - (r.data.drop r.endPos).length) := by
              rw [List.drop_append_eq_append_drop,
                List.drop_eq_nil_of_le (by simp only [List.length_drop]; omega),
                List.nil_append]
            have hidx : p.length - (r.data.drop r.endPos).length =
                p.length - (r.size - r.endPos) := by
              simp only [List.length_drop]; omega
            rw [htarget, h3, hidx]

theorem take_succ_set (l : List UInt8) (i : Nat) (b : UInt8) (hi : i < l.length) :
    (l.set i b).take (i + 1) = l.take i ++ [b] := by
  rw [List.set_eq_take_cons_drop b hi, List.take_append_eq_append_take]
  have h1 : (l.take i).length = i := by simp only [List.length_take]; omega
  rw [h1, List.take_take]
  have h2 : min (i + 1) i = i := by omega
  have h3 : i + 1 - i = 1 := by omega
  rw [h2, h3]
  simp

theorem drop_succ_set (l : List UInt8) (i : Nat) (b : UInt8) (hi : i < l.length) :
    (l.set i b).drop (i + 1) = l.drop (i + 1) := by
  rw [List.set_eq_take_cons_drop b hi, List.drop_append_eq_append_drop]
  have h1 : (l.take i).length = i := by simp only [List.length_take]; omega
  rw [h1, List.drop_eq_nil_of_le (by simp only [List.length_take]; omega)]
  have h2 : i + 1 - i = 1 := by omega
  rw [h2]
  simp

theorem set_full_take (l : List UInt8) (i : Nat) (b : UInt8) (hi : i + 1 = l.length) :
    l.set i b = l.take i ++ [b] := by
  have h0 : i < l.length := by omega
  have h1 : (l.set i b).length ≤ i + 1 := by simp only [List.length_set]; omega
  rw [← List.take_of_length_le h1, take_succ_set l i b h0]

theorem rbinv_writeNaiveByte (N : Nat) (hN : 0 < N) {r : RingBuffer} {h : List UInt8}
    (hinv : RBInv N r h) (b : UInt8) : RBInv N (r.writeNaiveByte b) (h ++ [b]) := by
  obtain ⟨hsz, hlen, hcase⟩ := hinv
  subst hsz
  rcases hcase with ⟨hfull, hstart, hend, hhlt, htake⟩ | ⟨hfull, hse, helt, hNh, hrot⟩
  · -- buffer not yet full
    have htake2 : r.data.take r.endPos = h := by rw [hend]; exact htake
    have hendlt : r.endPos < r.data.length := by omega
    by_cases hlast : r.endPos + 1 = r.size
    · -- this byte exactly fills the buffer
      have hres : r.writeNaiveByte b = ⟨r.data.set r.endPos b, r.size, 0, 0, true⟩ := by
        rw [RingBuffer.writeNaiveByte, hlast, hfull, hstart]
        simp [Nat.mod_self]
      rw [hres]
      refine ⟨rfl, by simp only [List.length_set]; exact hlen, Or.inr ⟨rfl, rfl, hN, ?_, ?_⟩⟩
      · simp only [List.length_append, List.length_singleton]; omega
      · simp only [List.drop_zero, List.take_zero, List.append_nil]
        rw [set_full_take _ _ _ (by omega), htake2,
          listSuffix_of_le _ _ (by simp only [List.length_append, List.length_singleton]; omega)]
    · -- room remains after this byte
      have hlt : r.endPos + 1 < r.size := by omega
      have hres : r.writeNaiveByte b =
          ⟨r.data.set r.endPos b, r.size, r.start, r.endPos + 1, r.full⟩ := by
        rw [RingBuffer.writeNaiveByte, hfull, hstart]
        simp [Nat.mod_eq_of_lt hlt, Nat.pos_iff_ne_zero.mp (Nat.lt_of_le_of_lt (Nat.zero_le _) hlt)]
      rw [hres]
      refine ⟨rfl, by simp only [List.length_set]; exact hlen,
        Or.inl ⟨hfull, hstart, ?_, ?_, ?_⟩⟩
      · simp only [List.length_append, List.length_singleton]; omega
      · simp only [List.length_append, List.length_singleton]; omega
      · have hidx : h.length + 1 = r.endPos + 1 := by omega
        simp only [List.length_append, List.length_singleton, hidx]
        rw [take_succ_set _ _ _ hendlt, htake2]
  · -- buffer already full
    have hendlt : r.endPos < r.data.length := by omega
    have htarget : listSuffix (h ++ [b]) r.size =
        (r.data.drop r.endPos ++ r.data.take r.endPos).drop 1 ++ [b] := by
      rw [listSuffix_append_short _ _ _ hNh
        (by simp only [List.length_singleton]; omega), hrot, List.length_singleton]
    by_cases hlast : r.endPos + 1 = r.size
    · have hres : r.writeNaiveByte b = ⟨r.data.set r.endPos b, r.size, 0, 0, true⟩ := by
        rw [RingBuffer.writeNaiveByte, hfull, hse, hlast]
        simp [Nat.mod_self]
      rw [hres]
      refine ⟨rfl, by simp only [List.length_set]; exact hlen, Or.inr ⟨rfl, rfl, hN, ?_, ?_⟩⟩
      · simp only [List.length_append, List.length_singleton]; omega
      · simp only [List.drop_zero, List.take_zero, List.append_nil]
        rw [set_full_take _ _ _ (by omega), htarget,
          drop_append_of_le _ _ _ (by simp only [List.length_drop]; omega), List.drop_drop]
        have h1 : r.data.drop (r.endPos + 1) = [] :=
          List.drop_eq_nil_of_le (by omega)
        rw [h1, List.nil_append]
    · have hlt : r.endPos + 1 < r.size := by omega
      have hres : r.writeNaiveByte b =
          ⟨r.data.set r.endPos b, r.size, r.endPos + 1, r.endPos + 1, true⟩ := by
        rw [RingBuffer.writeNaiveByte, hfull, hse]
        simp [Nat.mod_eq_of_lt hlt]
      rw [hres]
      refine ⟨rfl, by simp only [List.length_set]; exact hlen, Or.inr ⟨rfl, rfl, hlt, ?_, ?_⟩⟩
      · simp only [List.length_append, List.length_singleton]; omega
      · rw [drop_succ_set _ _ _ hendlt, take_succ_set _ _ _ hendlt, htarget,
          drop_append_of_le _ _ _ (by simp only [List.length_drop]; omega), List.drop_drop,
          ← List.append_assoc]

theorem rbinv_writeNaive (N : Nat) (hN : 0 < N) {r : RingBuffer} {h : List UInt8}
    (hinv : RBInv N r h) (p : List UInt8) : RBInv N (r.writeNaive p) (h ++ p) := by
  induction p generalizing r h with
  | nil => simpa [RingBuffer.writeNaive] using hinv
  | cons b p ih =>
    have step := rbinv_writeNaiveByte N hN hinv b
    have := ih step
    simpa [RingBuffer.writeNaive, List.foldl_cons] using this

theorem rbinv_bytes (N : Nat) {r : RingBuffer} {h : List UInt8}
    (hinv : RBInv N r h) : r.bytes = listSuffix h N := by
  obtain ⟨hsz, hlen, hcase⟩ := hinv
  subst hsz
  rcases hcase with ⟨hfull, hstart, hend, hhlt, htake⟩ | ⟨hfull, hse, helt, hNh, hrot⟩
  · rw [listSuffix_of_le _ _ (le_of_lt hhlt)]
    by_cases h0 : h.length = 0
    · have hnil : h = [] := List.length_eq_zero.mp h0
      subst hnil
      rw [RingBuffer.bytes, if_pos ⟨by rw [hstart, hend]; rfl, hfull⟩]
    · rw [RingBuffer.bytes, if_neg (by rw [hstart, hend]; rintro ⟨h1, h2⟩; omega),
        if_neg (by rw [hfull, hend, hstart]; simp only [Bool.false_eq_true, false_or]; omega)]
      rw [hstart, hend, List.drop_zero, Nat.sub_zero, htake]
  · rw [RingBuffer.bytes, if_neg (by rw [hfull]; rintro ⟨h1, h2⟩; cases h2),
      if_pos (Or.inl hfull), hse, hrot]

theorem rbinv_len (N : Nat) {r : RingBuffer} {h : List UInt8}
    (hinv : RBInv N r h) : r.len = min h.length N := by
  obtain ⟨hsz, hlen, hcase⟩ := hinv
  subst hsz
  rcases hcase with ⟨hfull, hstart, hend, hhlt, htake⟩ | ⟨hfull, hse, helt, hNh, hrot⟩
  · rw [RingBuffer.len, RingBuffer.lenLocked, hfull, hstart, hend]
    simp
    omega
  · rw [RingBuffer.len, RingBuffer.lenLocked, hfull]
    simp
    omega

theorem rbinv_foldl_write (N : Nat) (hN : 0 < N) {r : RingBuffer} {h : List UInt8}
    (hinv : RBInv N r h) (ws : List (List UInt8)) :
    RBInv N (ws.foldl RingBuffer.write r) (h ++ ws.flatten) := by
  induction ws generalizing r h with
  | nil => simpa using hinv
  | cons p ws ih =>
    have step := rbinv_write N hN hinv p
    have hres := ih step
    simpa [List.append_assoc] using hres

theorem rbinv_foldl_writeNaive (N : Nat) (hN : 0 < N) {r : RingBuffer} {h : List UInt8}
    (hinv : RBInv N r h) (ws : List (List UInt8)) :
    RBInv N (ws.foldl RingBuffer.writeNaive r) (h ++ ws.flatten) := by
  induction ws generalizing r h with
  | nil => simpa using hinv
  | cons p ws ih =>
    have step := rbinv_writeNaive N hN hinv p
    have hres := ih step
    simpa [List.append_assoc] using hres

theorem rbinv_newNaive (N : Nat) (hN : 0 < N) : RBInv N (RingBuffer.newNaive N) [] := by
  refine ⟨rfl, by simp [RingBuffer.newNaive], Or.inl ?_⟩
  simp [RingBuffer.newNaive]
  omega

/-- C1: for any sequence of writes into a buffer of capacity `N > 0`,
`Bytes()` returns the concatenation of all bytes written when the total
length is at most `N`, and exactly the trailing `N` bytes of that
concatenation when the total exceeds `N` (a single oversized write
included). -/
theorem ringBuffer_write_bytes_fidelity (N : Nat) (hN : 0 < N) (ws : List (List UInt8)) :
    (ws.flatten.length ≤ N →
      (ws.foldl RingBuffer.write (RingBuffer.new N)).bytes = ws.flatten) ∧
    (N < ws.flatten.length →
      (ws.foldl RingBuffer.write (RingBuffer.new N)).bytes =
        ws.flatten.drop (ws.flatten.length - N)) := by
  have hinv := rbinv_foldl_write N hN (rbinv_new N hN) ws
  rw [List.nil_append] at hinv
  have hbytes := rbinv_bytes N hinv
  constructor
  · intro hle
    rw [hbytes, listSuffix_of_le _ _ hle]
  · intro hgt
    rw [hbytes, listSuffix]

theorem ringBuffer_write_bytes_fidelity_witness :
    (([[1], [2], [3]] : List (List UInt8)).foldl RingBuffer.write
        (RingBuffer.new 2)).bytes = [2, 3] ∧
    (([[9, 8]] : List (List UInt8)).foldl RingBuffer.write
        (RingBuffer.new 4)).bytes = [9, 8] := by
  constructor
  · rw [(ringBuffer_write_bytes_fidelity 2 (by decide) [[1], [2], [3]]).2 (by decide)]
    decide
  · rw [(ringBuffer_write_bytes_fidelity 4 (by decide) [[9, 8]]).1 (by decide)]
    decide

/-- C10: the batch-copy ring buffer and the byte-at-a-time ring buffer are
observationally equivalent: for every capacity `N > 0` and write sequence,
`Bytes()` and `Len()` agree between the two implementations. -/
theorem ringBuffer_batch_naive_equiv (N : Nat) (hN : 0 < N) (ws : List (List UInt8)) :
    (ws.foldl RingBuffer.write (RingBuffer.new N)).bytes =
      (ws.foldl RingBuffer.writeNaive (RingBuffer.newNaive N)).bytes ∧
    (ws.foldl RingBuffer.write (RingBuffer.new N)).len =
      (ws.foldl RingBuffer.writeNaive (RingBuffer.newNaive N)).len := by
  have hb := rbinv_foldl_write N hN (rbinv_new N hN) ws
  have hn := rbinv_foldl_writeNaive N hN (rbinv_newNaive N hN) ws
  rw [List.nil_append] at hb hn
  exact ⟨by rw [rbinv_bytes N hb, rbinv_bytes N hn],
         by rw [rbinv_len N hb, rbinv_len N hn]⟩

theorem ringBuffer_batch_naive_equiv_witness :
    (([[5, 6, 7], [8]] : List (List UInt8)).foldl RingBuffer.write
        (RingBuffer.new 2)).bytes =
      (([[5, 6, 7], [8]] : List (List UInt8)).foldl RingBuffer.writeNaive
        (RingBuffer.newNaive 2)).bytes :=
  (ringBuffer_batch_naive_equiv 2 (by decide) [[5, 6, 7], [8]]).1

example : parseTurnSequence "0,2" ["x", "y", "z"] = ["x", "z"] := by decide

example : parseTurnSequence "0-2" ["x", "y", "z"] = ["x", "y", "z"] := by decide

example : parseTurnSequence "2-0" ["x", "y", "z"] = ["x", "y", "z"] := by decide

example : parseTurnSequence "" ["x", "y", "z"] = ["x", "y", "z"] := by decide

example : parseTurnSequence "0,99" ["x", "y", "z"] = ["x"] := by decide

example : parseTurnSequence " 1 , 2 " ["x", "y", "z"] = ["y", "z"] := by decide

theorem getD_mem_of_lt (g : List String) (n : Nat) (h : n < g.length) : g.getD n "" ∈ g := by
  rw [List.getD_eq_getElem g "" h]
  exact List.getElem_mem h

theorem pickRange_subset (s e : Int) (g : List String) (x : String)
    (hx : x ∈ pickRange s e g) : x ∈ g := by
  rcases List.mem_filterMap.mp hx with ⟨i, _, hf⟩
  by_cases hc : 0 ≤ i ∧ i < (g.length : Int)
  · rw [if_pos hc] at hf
    cases hf
    exact getD_mem_of_lt g i.toNat (by omega)
  · rw [if_neg hc] at hf
    cases hf

theorem parsePart_subset (g acc : List String) (part : List Char)
    (hacc : ∀ x ∈ acc, x ∈ g) : ∀ x ∈ parsePart g acc part, x ∈ g := by
  intro x hx
  rw [parsePart] at hx
  split at hx
  · exact hacc x hx
  · split at hx
    · split at hx
      · split at hx
        · split at hx
          · rcases List.mem_append.mp hx with h | h
            · exact hacc x h
            · exact pickRange_subset _ _ _ _ h
          · exact hacc x hx
        · exact hacc x hx
        · exact hacc x hx
      · exact hacc x hx
    · split at hx
      · split at hx
        · rcases List.mem_append.mp hx with h | h
          · exact hacc x h
          · rcases List.mem_singleton.mp h with rfl
            exact getD_mem_of_lt g _ (by omega)
        · exact hacc x hx
      · exact hacc x hx

theorem foldl_parsePart_subset (g : List String) (parts : List (List Char))
    (acc : List String) (hacc : ∀ x ∈ acc, x ∈ g) :
    ∀ x ∈ parts.foldl (parsePart g) acc, x ∈ g := by
  induction parts generalizing acc with
  | nil => simpa using hacc
  | cons part rest ih =>
    intro x hx
    exact ih (parsePart g acc part) (parsePart_subset g acc part hacc) x hx

/-- C9: turn-sequence parsing: the empty expression yields all grid ids in
display order; `"0,2"` yields the ids at indices 0 and 2; `"0-2"` is an
inclusive range; `"2-0"` contributes nothing and falls back to all ids;
every out-of-range index is dropped silently (only grid ids ever appear in
the result). -/
theorem parseTurnSequence_spec :
    (∀ g : List String, parseTurnSequence "" g = g) ∧
    (∀ g : List String, 2 < g.length →
      parseTurnSequence "0,2" g = [g.getD 0 "", g.getD 2 ""]) ∧
    (∀ g : List String, 2 < g.length →
      parseTurnSequence "0-2" g = [g.getD 0 "", g.getD 1 "", g.getD 2 ""]) ∧
    (∀ g : List String, parseTurnSequence "2-0" g = g) ∧
    (∀ (input : String) (g : List String), ∀ x ∈ parseTurnSequence input g, x ∈ g) := by
  refine ⟨?_, ?_, ?_, ?_, ?_⟩
  · intro g
    rw [parseTurnSequence, if_pos rfl]
  · intro g hg
    have h0 : (0 : Int) < (g.length : Int) := by omega
    have h2 : (2 : Int) < (g.length : Int) := by omega
    simp +decide [parseTurnSequence, parsePart, trimChars, splitChar, goAtoi, parseDigits,
      goIsSpace, pickRange, h0, h2]
  · intro g hg
    have h0 : (0 : Int) < (g.length : Int) := by omega
    have h1 : (1 : Int) < (g.length : Int) := by omega
    have h2 : (2 : Int) < (g.length : Int) := by omega
    have hT : trimChars ['0', '-', '2'] = ['0', '-', '2'] := by decide
    have hS : splitChar '-' ['0', '-', '2'] = [['0'], ['2']] := by decide
    have hA : goAtoi (trimChars ['0']) = some 0 := by decide
    have hB : goAtoi (trimChars ['2']) = some 2 := by decide
    have hRange : (List.range ((2 - 0 : Int) + 1).toNat).map (fun k => (0 : Int) + (k : Int)) =
        [0, 1, 2] := by decide
    have hpick : pickRange 0 2 g = [g.getD 0 "", g.getD 1 "", g.getD 2 ""] := by
      rw [pickRange, hRange]
      simp +decide [h0, h1, h2]
    have hS2 : splitChar ',' ['0', '-', '2'] = [['0', '-', '2']] := by decide
    simp +decide [parseTurnSequence, parsePart, hS2, hT, hS, hA, hB, hpick]
  · intro g
    simp +decide [parseTurnSequence, parsePart, trimChars, splitChar, goAtoi, parseDigits,
      goIsSpace, pickRange]
  · intro input g x hx
    rw [parseTurnSequence] at hx
    split at hx
    · exact hx
    · dsimp only at hx
      split at hx
      · exact hx
      · exact foldl_parsePart_subset g _ [] (by intro y hy; cases hy) x hx

theorem parseTurnSequence_spec_witness :
    parseTurnSequence "0,2" ["x", "y", "z"] = ["x", "z"] ∧
    parseTurnSequence "0-2" ["x", "y", "z"] = ["x", "y", "z"] := by
  constructor
  · rw [parseTurnSequence_spec.2.1 ["x", "y", "z"] (by decide)]
    decide
  · rw [parseTurnSequence_spec.2.2.1 ["x", "y", "z"] (by decide)]
    decide

theorem utf8Char_ne_nil (c : Char) : utf8Char c ≠ [] := by
  rw [utf8Char]
  split
  · simp
  · split
    · simp
    · split <;> simp

theorem utf8_ne_nil (rs : List Char) (h : rs ≠ []) : utf8 rs ≠ [] := by
  match rs with
  | [] => exact absurd rfl h
  | c :: rest =>
    rw [utf8]
    simp only [List.map_cons, List.flatten_cons, ne_eq]
    intro hcon
    exact utf8Char_ne_nil c (List.append_eq_nil.mp hcon).1

/-- C8: a non-ASCII rune sequence discards the staged preedit and emits only
the incoming runes; in particular for the events `"n"`, `"i"`, `"你"` the
only bytes written are the UTF-8 encoding of `"你"` and no `n` or `i` byte
is ever written. -/
theorem imeBuffer_nonAscii_discards_preedit :
    (∀ (b : IMEBuffer) (runes : List Char), runes ≠ [] →
      runes.any (fun r => 127 < r.toNat) = true →
      b.processRunes runes = ({ b with buffer := [] }, utf8 runes, false, false) ∧
      dispatchRunes b runes false = ({ b with buffer := [] }, [utf8 runes])) ∧
    dispatchRuneEvents ⟨[], ""⟩ [['n'], ['i'], ['你']] =
      (⟨[], ""⟩, [[0xE4, 0xBD, 0xA0]]) ∧
    (∀ w ∈ (dispatchRuneEvents ⟨[], ""⟩ [['n'], ['i'], ['你']]).2,
      (0x6E : UInt8) ∉ w ∧ (0x69 : UInt8) ∉ w) := by
  refine ⟨?_, by decide, by decide⟩
  intro b runes hne hany
  have hproc : b.processRunes runes = ({ b with buffer := [] }, utf8 runes, false, false) := by
    rw [IMEBuffer.processRunes, if_neg hne, if_pos hany]
  refine ⟨hproc, ?_⟩
  rw [dispatchRunes, hproc]
  simp only [ne_eq]
  rw [if_neg (by simp), if_pos (by simpa using utf8_ne_nil runes hne)]
  simp

theorem imeBuffer_nonAscii_discards_preedit_witness :
    (IMEBuffer.processRunes ⟨['n', 'i'], "p1"⟩ ['你'] =
      (⟨[], "p1"⟩, utf8 ['你'], false, false)) ∧
    dispatchRunes ⟨['n', 'i'], "p1"⟩ ['你'] false = (⟨[], "p1"⟩, [utf8 ['你']]) :=
  imeBuffer_nonAscii_discards_preedit.1 ⟨['n', 'i'], "p1"⟩ ['你'] (by decide) (by decide)

example : splitCommandLine "sh -c \"printf hello\"" = .ok ["sh", "-c", "printf hello"] :=
  rfl

example : splitCommandLine "a \"b" = .error "unterminated quote in command" := rfl

theorem perm_any_eq {α : Type} (l1 l2 : List α) (f : α → Bool) (p : l1.Perm l2) :
    l1.any f = l2.any f := by
  refine Bool.eq_iff_iff.mpr ?_
  simp only [List.any_eq_true]
  constructor
  · rintro ⟨x, hx, hfx⟩; exact ⟨x, p.mem_iff.mp hx, hfx⟩
  · rintro ⟨x, hx, hfx⟩; exact ⟨x, p.mem_iff.mpr hx, hfx⟩

theorem ite_append_perm (c : Prop) [Decidable c] (l1 l2 t : List String)
    (h : l1.Perm l2) : (if c then l1 ++ t else l1).Perm (if c then l2 ++ t else l2) := by
  split
  · exact h.append_right t
  · exact h

theorem buildEnv_perm (environ : List String) (o1 o2 : List (String × String))
    (hp : o1.Perm o2) : (buildEnv environ o1).Perm (buildEnv environ o2) := by
  have hterm := perm_any_eq o1 o2 (fun kv => decide (kv.1 = "TERM")) hp
  have henv0 := (hp.map (fun kv => kv.1 ++ "=" ++ kv.2)).append_left environ
  rw [buildEnv, buildEnv, hterm]
  have henv1 := ite_append_perm
    (¬ (o2.any fun kv => decide (kv.1 = "TERM")) = true)
    (environ ++ o1.map fun kv => kv.1 ++ "=" ++ kv.2)
    (environ ++ o2.map fun kv => kv.1 ++ "=" ++ kv.2)
    ["TERM=xterm-256color", "COLORTERM=truecolor"] henv0
  have hnode := perm_any_eq _ _
    (fun e => decide (12 < e.length) && decide (e.take 12 = "NODE_OPTIONS")) henv1
  rw [hnode]
  exact ite_append_perm _ _ _ _ henv1

/-- C5 (as stated) is refuted: the overlay is a Go map and its iteration
order is unspecified, so two calls of `BuildCommand` on the same profile
(overlay {A:1, B:2}) and the same process environment can produce the two
entry orders below, whose environment lists differ.  The argv is identical. -/
theorem buildCommand_env_order_counterexample :
    ([("A", "1"), ("B", "2")] : List (String × String)).Perm [("B", "2"), ("A", "1")] ∧
    (buildCommand "" "" [] (fun _ => true) "/w"
        (some ⟨"tool", [("A", "1"), ("B", "2")], AutoApprove.yolo⟩)
        [("A", "1"), ("B", "2")]).toOption.map Cmd.env =
      some ["A=1", "B=2", "TERM=xterm-256color", "COLORTERM=truecolor",
            "NODE_OPTIONS=--max-old-space-size=4096"] ∧
    (buildCommand "" "" [] (fun _ => true) "/w"
        (some ⟨"tool", [("A", "1"), ("B", "2")], AutoApprove.yolo⟩)
        [("B", "2"), ("A", "1")]).toOption.map Cmd.env =
      some ["B=2", "A=1", "TERM=xterm-256color", "COLORTERM=truecolor",
            "NODE_OPTIONS=--max-old-space-size=4096"] ∧
    (["A=1", "B=2", "TERM=xterm-256color", "COLORTERM=truecolor",
      "NODE_OPTIONS=--max-old-space-size=4096"] : List String) ≠
      ["B=2", "A=1", "TERM=xterm-256color", "COLORTERM=truecolor",
       "NODE_OPTIONS=--max-old-space-size=4096"] :=
  ⟨by decide, rfl, rfl, by decide⟩

/-- C5 (amended): for a fixed profile, overlay and process environment, the
resolved argv and working directory are bit-identical across calls of
`BuildCommand`, and the environment lists of two calls are equal as
multisets; only the relative order of overlay entries (Go map iteration
order, which is unspecified) may vary. -/
theorem buildCommand_deterministic_up_to_env_order
    (claudePath codexPath workDir : String) (environ : List String)
    (resolves : String → Bool) (profile? : Option Profile)
    (o1 o2 : List (String × String)) (hp : o1.Perm o2) :
    (buildCommand claudePath codexPath environ resolves workDir profile? o1).map Cmd.argv =
      (buildCommand claudePath codexPath environ resolves workDir profile? o2).map Cmd.argv ∧
    (buildCommand claudePath codexPath environ resolves workDir profile? o1).map Cmd.dir =
      (buildCommand claudePath codexPath environ resolves workDir profile? o2).map Cmd.dir ∧
    (∀ c1 c2,
      buildCommand claudePath codexPath environ resolves workDir profile? o1 = .ok c1 →
      buildCommand claudePath codexPath environ resolves workDir profile? o2 = .ok c2 →
      c1.argv = c2.argv ∧ c1.dir = c2.dir ∧ c1.env.Perm c2.env) := by
  rw [buildCommand, buildCommand]
  cases hres : resolveParts claudePath codexPath resolves profile? with
  | error e =>
    refine ⟨rfl, rfl, ?_⟩
    intro c1 c2 h1 h2
    simp only [Except.map] at h1
    cases h1
  | ok argv =>
    refine ⟨rfl, rfl, ?_⟩
    intro c1 c2 h1 h2
    simp only [Except.map, Except.ok.injEq] at h1 h2
    subst h1
    subst h2
    exact ⟨rfl, rfl, buildEnv_perm environ o1 o2 hp⟩

theorem buildCommand_deterministic_up_to_env_order_witness :
    (buildCommand "" "" [] (fun _ => true) "/w"
        (some ⟨"tool", [("A", "1"), ("B", "2")], AutoApprove.yolo⟩)
        [("A", "1"), ("B", "2")]).map Cmd.argv =
      (buildCommand "" "" [] (fun _ => true) "/w"
        (some ⟨"tool", [("A", "1"), ("B", "2")], AutoApprove.yolo⟩)
        [("B", "2"), ("A", "1")]).map Cmd.argv :=
  (buildCommand_deterministic_up_to_env_order "" "" "/w" [] (fun _ => true)
    (some ⟨"tool", [("A", "1"), ("B", "2")], AutoApprove.yolo⟩)
    [("A", "1"), ("B", "2")] [("B", "2"), ("A", "1")] (by decide)).1

/-- C7 (as stated) is refuted: `CreateSession` reassigns the caller's
`EnvVars` field.  For a profile whose overlay is nil, the field is non-nil
after the call (it points at a fresh map holding the injected isolation
variable). -/
theorem envPrepare_mutates_field_counterexample :
    (⟨"claude", Option.none⟩ : ProfileObj).envVarsRef = Option.none ∧
    (envPrepare ⟨[], 0⟩ ⟨"claude", Option.none⟩ "/state/sessions/p1").2.envVarsRef =
      some 0 ∧
    some 0 ≠ (Option.none : Option Nat) := by
  refine ⟨rfl, rfl, by decide⟩

theorem lookupMap_cons_ne (kv : Nat × List (String × String))
    (maps : List (Nat × List (String × String))) (next i : Nat) (hne : ¬ kv.1 = i) :
    EnvHeap.lookupMap ⟨kv :: maps, next⟩ i = EnvHeap.lookupMap ⟨maps, next⟩ i := by
  rw [EnvHeap.lookupMap, EnvHeap.lookupMap]
  have hbeq : (kv.1 == i) = false := by simpa using hne
  simp only [List.find?_cons, hbeq]

theorem lookupMap_cons_self (k : Nat) (v : List (String × String))
    (maps : List (Nat × List (String × String))) (next : Nat) :
    EnvHeap.lookupMap ⟨(k, v) :: maps, next⟩ k = some v := by
  rw [EnvHeap.lookupMap]
  simp [List.find?_cons]

/-- C7 (amended): the engine clones the overlay before injecting the
isolation variable, so the map the profile referred to before the call is
unchanged in the heap and the caller's command field is untouched; however
the profile's `EnvVars` field itself is reassigned to the fresh clone,
which holds the old entries plus `CLAUDE_CONFIG_DIR` when absent. -/
theorem envPrepare_original_map_unchanged (h : EnvHeap) (p : ProfileObj) (dir : String)
    (oldId : Nat) (href : p.envVarsRef = some oldId) (hwf : oldId < h.next) :
    ((envPrepare h p dir).1.lookupMap oldId = h.lookupMap oldId) ∧
    ((envPrepare h p dir).2.command = p.command) ∧
    ((envPrepare h p dir).2.envVarsRef = some h.next ∧ ¬ h.next = oldId) ∧
    ((envPrepare h p dir).1.lookupMap h.next = some (
      if (((h.lookupMap oldId).getD []).lookup "CLAUDE_CONFIG_DIR").isNone then
        ((h.lookupMap oldId).getD []) ++ [("CLAUDE_CONFIG_DIR", dir)]
      else ((h.lookupMap oldId).getD []))) := by
  have hne : ¬ (h.next = oldId) := by omega
  by_cases hc : (((h.lookupMap oldId).getD []).lookup "CLAUDE_CONFIG_DIR").isNone
  · have hres : envPrepare h p dir =
        (⟨(h.next, ((h.lookupMap oldId).getD []) ++ [("CLAUDE_CONFIG_DIR", dir)]) ::
            (h.next, (h.lookupMap oldId).getD []) :: h.maps, h.next + 1⟩,
         { p with envVarsRef := some h.next }) := by
      rw [envPrepare, href]
      dsimp only [EnvHeap.alloc, EnvHeap.update]
      rw [if_pos hc]
    rw [hres, if_pos hc]
    refine ⟨?_, rfl, ⟨rfl, hne⟩, ?_⟩
    · rw [lookupMap_cons_ne _ _ _ _ hne, lookupMap_cons_ne _ _ _ _ hne]
      rfl
    · exact lookupMap_cons_self _ _ _ _
  · have hres : envPrepare h p dir =
        (⟨(h.next, (h.lookupMap oldId).getD []) :: h.maps, h.next + 1⟩,
         { p with envVarsRef := some h.next }) := by
      rw [envPrepare, href]
      dsimp only [EnvHeap.alloc, EnvHeap.update]
      rw [if_neg hc]
    rw [hres, if_neg hc]
    refine ⟨?_, rfl, ⟨rfl, hne⟩, ?_⟩
    · rw [lookupMap_cons_ne _ _ _ _ hne]
      rfl
    · exact lookupMap_cons_self _ _ _ _

theorem envPrepare_original_map_unchanged_witness :
    (envPrepare ⟨[(0, [("FOO", "bar")])], 1⟩ ⟨"claude", some 0⟩ "/d").1.lookupMap 0 =
      EnvHeap.lookupMap ⟨[(0, [("FOO", "bar")])], 1⟩ 0 :=
  (envPrepare_original_map_unchanged ⟨[(0, [("FOO", "bar")])], 1⟩ ⟨"claude", some 0⟩
    "/d" 0 rfl (by decide)).1

theorem keysNodup_filter (l : List (String × Nat)) (pid : String) (h : keysNodup l) :
    keysNodup (l.filter (fun e => !(e.1 == pid))) := by
  rw [keysNodup] at h ⊢
  exact h.sublist ((List.filter_sublist l).map Prod.fst)

theorem not_mem_filter_keys (l : List (String × Nat)) (pid : String) :
    pid ∉ (l.filter (fun e => !(e.1 == pid))).map Prod.fst := by
  intro hmem
  rcases List.mem_map.mp hmem with ⟨e, he, hfst⟩
  have := List.of_mem_filter he
  simp [hfst] at this

theorem keysNodup_createSession (st : EngineState) (pid : String)
    (h : keysNodup st.sessions) : keysNodup (createSession st pid).1.sessions := by
  rw [createSession]
  cases hfind : st.sessions.find? (fun kv => kv.1 == pid) with
  | none =>
    dsimp only [createFresh, keysNodup]
    rw [List.map_cons]
    refine List.nodup_cons.mpr ⟨?_, h⟩
    intro hmem
    rcases List.mem_map.mp hmem with ⟨e, he, hfst⟩
    have hnone := List.find?_eq_none.mp hfind e he
    simp [hfst] at hnone
  | some kv =>
    dsimp only
    by_cases hrun : (st.getObj kv.2).map SessionObj.status = some SessionStatus.running
    · rw [if_pos hrun]
      exact h
    · rw [if_neg hrun]
      dsimp only [createFresh, keysNodup]
      rw [List.map_cons]
      refine List.nodup_cons.mpr ⟨?_, keysNodup_filter st.sessions pid h⟩
      exact not_mem_filter_keys st.sessions pid

theorem engineReach_keysNodup (st : EngineState) (h : EngineReach st) :
    keysNodup st.sessions := by
  induction h with
  | init => exact List.nodup_nil
  | create st pid _ ih => exact keysNodup_createSession st pid ih
  | stop st tok _ ih => exact ih
  | close st pid _ ih =>
    rw [closeSession]
    cases hfind : st.sessions.find? (fun kv => kv.1 == pid) with
    | none => exact ih
    | some kv => exact keysNodup_filter st.sessions pid ih

theorem find_createFresh (st : EngineState) (pid : String) :
    (createFresh st pid).1.sessions.find? (fun kv => kv.1 == pid) = some (pid, st.next) :=
  List.find?_cons_of_pos _ (by simp)

theorem getObj_createFresh (st : EngineState) (pid : String) :
    (createFresh st pid).1.getObj st.next = some ⟨st.next, pid, SessionStatus.running⟩ := by
  rw [EngineState.getObj]
  dsimp only [createFresh]
  rw [List.find?_cons_of_pos _ (by simp)]
  rfl

theorem createSession_of_createFresh (st1 : EngineState) (pid : String) :
    createSession (createFresh st1 pid).1 pid = ((createFresh st1 pid).1, st1.next) := by
  rw [createSession, find_createFresh]
  dsimp only
  rw [getObj_createFresh]
  rw [if_pos (by rfl)]

/-- C3: repeating `CreateSession` without an intervening termination returns
the same session object and leaves the registry unchanged; every reachable
registry holds at most one entry (hence at most one running session) per
project id; and once the registered session has left the running state, the
next `CreateSession` returns a fresh object (a new token) with the same
project id, started running. -/
theorem engine_createSession_exclusivity :
    (∀ (st : EngineState) (pid : String),
      createSession (createSession st pid).1 pid =
        ((createSession st pid).1, (createSession st pid).2)) ∧
    (∀ st : EngineState, EngineReach st → keysNodup st.sessions) ∧
    (∀ (st : EngineState) (pid : String) (tok : Nat),
      st.sessions.find? (fun kv => kv.1 == pid) = some (pid, tok) →
      (st.getObj tok).map SessionObj.status = some SessionStatus.stopped →
      tok < st.next →
      (createSession st pid).2 = st.next ∧ ¬ (createSession st pid).2 = tok ∧
      (createSession st pid).1.getObj (createSession st pid).2 =
        some ⟨st.next, pid, SessionStatus.running⟩) := by
  refine ⟨?_, engineReach_keysNodup, ?_⟩
  · intro st pid
    rcases hfind : st.sessions.find? (fun kv => kv.1 == pid) with _ | kv
    · have h1 : createSession st pid = createFresh st pid := by
        rw [createSession, hfind]
      rw [h1]
      exact createSession_of_createFresh st pid
    · by_cases hrun : (st.getObj kv.2).map SessionObj.status = some SessionStatus.running
      · have h1 : createSession st pid = (st, kv.2) := by
          rw [createSession, hfind]
          dsimp only
          rw [if_pos hrun]
        rw [h1]
        dsimp only
        rw [createSession, hfind]
        dsimp only
        rw [if_pos hrun]
      · have h1 : createSession st pid =
            createFresh { st with sessions := st.sessions.filter (fun e => !(e.1 == pid)) }
              pid := by
          rw [createSession, hfind]
          dsimp only
          rw [if_neg hrun]
        rw [h1]
        exact createSession_of_createFresh _ pid
  · intro st pid tok hfind hstop hlt
    have h1 : createSession st pid =
        createFresh { st with sessions := st.sessions.filter (fun e => !(e.1 == pid)) }
          pid := by
      rw [createSession, hfind]
      dsimp only
      rw [if_neg (by rw [hstop]; intro hcon; cases hcon)]
    rw [h1]
    exact ⟨rfl, by intro hcon; dsimp only [createFresh] at hcon; omega,
      getObj_createFresh _ pid⟩

theorem engine_createSession_exclusivity_witness :
    (createSession ⟨[("p", 0)], [(0, ⟨0, "p", SessionStatus.stopped⟩)], 1⟩ "p").2 = 1 ∧
    ¬ (createSession ⟨[("p", 0)], [(0, ⟨0, "p", SessionStatus.stopped⟩)], 1⟩ "p").2 = 0 ∧
    (createSession ⟨[("p", 0)], [(0, ⟨0, "p", SessionStatus.stopped⟩)], 1⟩ "p").1.getObj
        (createSession ⟨[("p", 0)], [(0, ⟨0, "p", SessionStatus.stopped⟩)], 1⟩ "p").2 =
      some ⟨1, "p", SessionStatus.running⟩ :=
  engine_createSession_exclusivity.2.2
    ⟨[("p", 0)], [(0, ⟨0, "p", SessionStatus.stopped⟩)], 1⟩ "p" 0 (by decide) (by decide)
    (by decide)

theorem stop_of_not_running (s : PTYState) (h : ¬ s.status = SessionStatus.running) :
    s.stop = s := by
  rw [PTYState.stop, if_pos h]

theorem status_stop_of_running (s : PTYState) (h : s.status = SessionStatus.running) :
    s.stop.status = SessionStatus.stopped := by
  rw [PTYState.stop, if_neg (not_not_intro h)]

theorem stop_idem (s : PTYState) : s.stop.stop = s.stop := by
  by_cases hrun : s.status = SessionStatus.running
  · exact stop_of_not_running _
      (by rw [status_stop_of_running s hrun]; intro hcon; cases hcon)
  · rw [stop_of_not_running s hrun]
    exact stop_of_not_running s hrun

theorem stop_iterate_stop (s : PTYState) (n : Nat) :
    PTYState.stop^[n] s.stop = s.stop := by
  induction n with
  | zero => rfl
  | succ m ih =>
    rw [Function.iterate_succ_apply, stop_idem, ih]

theorem stop_iterate (s : PTYState) (n : Nat) (hn : 1 ≤ n) :
    PTYState.stop^[n] s = s.stop := by
  rcases n with _ | m
  · omega
  · rw [Function.iterate_succ_apply, stop_iterate_stop]

theorem stop_doneCloseCount (s : PTYState) : s.stop.doneCloseCount ≤ s.doneCloseCount + 1 := by
  rw [PTYState.stop]
  split
  · omega
  · dsimp only
    split
    · omega
    · dsimp only; omega

theorem iterate_stop_doneCloseCount (s : PTYState) (n : Nat) (h0 : s.doneCloseCount = 0) :
    (PTYState.stop^[n] s).doneCloseCount ≤ 1 := by
  rcases n with _ | m
  · simpa using by omega
  · rw [stop_iterate s (m + 1) (by omega)]
    have := stop_doneCloseCount s
    omega

theorem readLoop_closes_le (s : PTYState) (buf : RingBuffer) (evs : List ReadEv) :
    (readLoop (s, buf) evs).1.outputCloseCount ≤ s.outputCloseCount + 1 := by
  induction evs generalizing s buf with
  | nil => simp [readLoop]
  | cons ev rest ih =>
    cases ev with
    | doneReady => simp [readLoop]
    | readErr =>
      rw [readLoop]
      dsimp only
      split
      · dsimp only; omega
      · omega
    | readData chunk =>
      rw [readLoop]
      exact ih s (buf.write chunk)

theorem readLoop_err_closes (s : PTYState) (buf : RingBuffer) (chunks : List (List UInt8)) :
    (readLoop (s, buf)
      (chunks.map ReadEv.readData ++ [ReadEv.readErr])).1.outputCloseCount =
    s.outputCloseCount + 1 := by
  induction chunks generalizing s buf with
  | nil =>
    rw [List.map_nil, List.nil_append, readLoop]
    dsimp only
    split
    · rfl
    · rfl
  | cons chunk rest ih =>
    rw [List.map_cons, List.cons_append, readLoop]
    exact ih s (buf.write chunk)

/-- C4 (amended): calling `Stop` N ≥ 1 times yields the same terminal state
as calling it once; the done channel is closed at most once (the
`sync.Once` guard, so repeated stops cannot panic); the read loop closes
the output channel at most once in every run, and exactly once in every
run that ends with a read error (EOF) — the run in which the done signal
wins the select exits without closing it. -/
theorem sessionStop_idempotent_single_close :
    (∀ (s : PTYState) (n : Nat), 1 ≤ n → PTYState.stop^[n] s = s.stop) ∧
    (∀ (s : PTYState) (n : Nat), s.doneCloseCount = 0 →
      (PTYState.stop^[n] s).doneCloseCount ≤ 1) ∧
    (∀ (s : PTYState) (buf : RingBuffer) (evs : List ReadEv), s.outputCloseCount = 0 →
      (readLoop (s, buf) evs).1.outputCloseCount ≤ 1) ∧
    (∀ (s : PTYState) (buf : RingBuffer) (chunks : List (List UInt8)),
      s.outputCloseCount = 0 →
      (readLoop (s, buf)
        (chunks.map ReadEv.readData ++ [ReadEv.readErr])).1.outputCloseCount = 1) := by
  refine ⟨stop_iterate, iterate_stop_doneCloseCount, ?_, ?_⟩
  · intro s buf evs h0
    have := readLoop_closes_le s buf evs
    omega
  · intro s buf chunks h0
    rw [readLoop_err_closes s buf chunks, h0]

theorem sessionStop_idempotent_single_close_witness :
    PTYState.stop^[3] PTYState.started = PTYState.started.stop ∧
    (readLoop (PTYState.started, RingBuffer.new 4)
      ([[1]].map ReadEv.readData ++ [ReadEv.readErr])).1.outputCloseCount = 1 :=
  ⟨sessionStop_idempotent_single_close.1 PTYState.started 3 (by decide),
   sessionStop_idempotent_single_close.2.2.2 PTYState.started (RingBuffer.new 4) [[1]] rfl⟩

/-- C4 (as stated) is refuted in the "exactly once" part: when `Stop` runs
between two read-loop iterations, the loop observes the done channel first
and exits without ever closing the output channel — zero closes, not one.
The stop itself closed the done channel exactly once. -/
theorem sessionStop_output_close_counterexample :
    PTYState.started.stop.doneCloseCount = 1 ∧
    (readLoop (PTYState.started.stop, RingBuffer.new 4)
      [ReadEv.doneReady]).1.outputCloseCount = 0 ∧
    (0 : Nat) ≠ 1 :=
  ⟨rfl, rfl, by decide⟩

example : reSearch (strCI "hello") "say HeLLo now".toList = true := by decide

example : reSearch (strCI "hello") "say hell now".toList = false := by decide

example : reSearch (RE.cat RE.wordB (RE.cat (strCI "run") RE.wordB)) "to run it".toList = true := by
  decide

example : reSearch (RE.cat RE.wordB (RE.cat (strCI "run") RE.wordB)) "running".toList = false := by
  decide

example : reSearch (RE.cat RE.bos (strCI "ab")) "xab".toList = false := by decide

example : reSearch (RE.cat RE.bos (strCI "ab")) "abx".toList = true := by decide

example : reSearch (RE.cat reDigits (chr '%')) "at 42% done".toList = true := by decide

example :
    reSearch reCommandApproval "Do you want to run this? rm -rf / [y/N]".toList = true := by
  decide

example :
    reSearch reInputRequired "Do you want to run this? rm -rf / [y/N]".toList = true := by
  decide

/-- C2: the code has no "rm -rf /" safety filter.  With a yolo profile, a
frame whose line contains the literal "rm -rf /" and matches the approval
patterns makes `Process` stage the auto-reply "y\r", and the
`SessionOutputMsg` handler writes it to the running session.  The claim
(and the repository's own documentation, which promises a forced pause on
`rm -rf /` even in YOLO mode) says no reply may be staged. -/
theorem watcher_auto_reply_rm_rf_bug :
    (listContainsSub "Do you want to run this? rm -rf / [y/N]".toList "rm -rf /".toList = true) ∧
    (watcherProcess newOutputWatcher "p1" "proj"
        (some ⟨"claude", [], AutoApprove.yolo⟩)
        "Do you want to run this? rm -rf / [y/N]\n".toList 100).1.pendingAutoReply = "y\r" ∧
    (autoReplyWrites
      (watcherProcess newOutputWatcher "p1" "proj"
        (some ⟨"claude", [], AutoApprove.yolo⟩)
        "Do you want to run this? rm -rf / [y/N]\n".toList 100).1 true).1 = ["y\r"] := by
  refine ⟨by decide, by decide, by decide⟩

example : ExtractConclusion "noise\n:::VIBE_OUTPUT:::\ndraft v1\n".toList = "draft v1".toList := by
  decide

example : ExtractConclusion ":::VIBE_OUTPUT:::\nok\nok".toList = "ok".toList := by decide

theorem lastIndexSub_isSome_of_contains (hay needle : List Char)
    (h : listContainsSub hay needle = true) :
    ∃ idx, lastIndexSub hay needle = some idx := by
  rw [listContainsSub, List.any_eq_true] at h
  rcases h with ⟨i, hi, hp⟩
  rw [lastIndexSub]
  cases hlast : ((List.range (hay.length + 1)).filter
      (fun j => needle.isPrefixOf (hay.drop j))).getLast? with
  | some idx => exact ⟨idx, rfl⟩
  | none =>
    have hnil := List.getLast?_eq_none_iff.mp hlast
    have hmem : i ∈ (List.range (hay.length + 1)).filter
        (fun j => needle.isPrefixOf (hay.drop j)) :=
      List.mem_filter.mpr ⟨hi, hp⟩
    rw [hnil] at hmem
    cases hmem

/-- C6 (amended): when the ANSI-cleaned text contains `:::VIBE_OUTPUT:::`,
`ExtractConclusion` takes the delimiter strategy — the (trimmed) suffix
after the last occurrence of the marker, to which only the common TUI-noise
cleanup (noise-line removal and consecutive deduplication) is applied — and
the frame-isolation heuristic is not consulted; for cleaned output ending
":::VIBE_OUTPUT:::\ndraft v1\n" the result is "draft v1". -/
theorem extractConclusion_marker_priority :
    (∀ (input : List Char) (idx : Nat),
      lastIndexSub (CleanOutput input) vibeMarker = some idx →
      (extractFromDelimiter (CleanOutput input)).2 = true ∧
      ExtractConclusion input =
        commonCleanup (trimChars ((CleanOutput input).drop (idx + vibeMarker.length)))) ∧
    (∀ input : List Char, listContainsSub (CleanOutput input) vibeMarker = true →
      ∃ idx, lastIndexSub (CleanOutput input) vibeMarker = some idx) ∧
    ExtractConclusion "noise\n:::VIBE_OUTPUT:::\ndraft v1\n".toList = "draft v1".toList := by
  refine ⟨?_, fun input h => lastIndexSub_isSome_of_contains _ _ h, by decide⟩
  intro input idx hidx
  have hed : extractFromDelimiter (CleanOutput input) =
      (trimChars ((CleanOutput input).drop (idx + vibeMarker.length)), true) := by
    rw [extractFromDelimiter, hidx]
  refine ⟨by rw [hed], ?_⟩
  rw [ExtractConclusion, hed]
  dsimp only
  simp

theorem extractConclusion_marker_priority_witness :
    (extractFromDelimiter (CleanOutput ":::VIBE_OUTPUT:::\nok\nok".toList)).2 = true ∧
    ExtractConclusion ":::VIBE_OUTPUT:::\nok\nok".toList =
      commonCleanup (trimChars ((CleanOutput ":::VIBE_OUTPUT:::\nok\nok".toList).drop
        (0 + vibeMarker.length))) :=
  extractConclusion_marker_priority.1 ":::VIBE_OUTPUT:::\nok\nok".toList 0 (by decide)

/-- C6 (as stated) is refuted in its "returns the suffix (trimmed)" part:
the returned text additionally passes the common noise cleanup, so for
cleaned output ":::VIBE_OUTPUT:::\nok\nok" — whose trimmed suffix after the
marker is "ok\nok" — the extractor deduplicates the repeated line and
returns "ok". -/
theorem extractConclusion_not_raw_suffix_counterexample :
    CleanOutput ":::VIBE_OUTPUT:::\nok\nok".toList = ":::VIBE_OUTPUT:::\nok\nok".toList ∧
    listContainsSub (CleanOutput ":::VIBE_OUTPUT:::\nok\nok".toList) vibeMarker = true ∧
    trimChars ((CleanOutput ":::VIBE_OUTPUT:::\nok\nok".toList).drop
      (0 + vibeMarker.length)) = "ok\nok".toList ∧
    lastIndexSub (CleanOutput ":::VIBE_OUTPUT:::\nok\nok".toList) vibeMarker = some 0 ∧
    ExtractConclusion ":::VIBE_OUTPUT:::\nok\nok".toList = "ok".toList ∧
    ¬ ("ok".toList = "ok\nok".toList) := by
  refine ⟨by decide, by decide, by decide, by decide, by decide, by decide⟩
